import Mathlib

/-!
Verification of the freva data-discovery engine.

This file gives a shallow embedding of the two discovery backends of the
repository and proves properties of them:

* `src/evaluation_system/model/solr.py` — the `SolrFindFiles` class:
  query translation (`_to_solr_query`), the paginated search executor
  (`_search`) and the facet aggregator (`_facets`).
* `src/model/file.py` — the `BaselineFile` class: the naming-convention
  codec (`from_path` / `to_path` / `to_dataset` / `get_version`), the
  file-system candidate enumerator and the latest-version resolver
  (`BaselineFile.search`).

Modelling conventions:

* Python strings that are split, joined or compared character-wise
  (file-system paths, path segments, facet field names) are modelled as
  `List Char`; strings that are only carried around opaquely (solr
  parameter values) are modelled as `String`.
* Python dicts are modelled as insertion-ordered association lists with
  the exact update semantics of CPython dicts: assignment replaces a
  value in place, new keys are appended at the end, `pop` removes the
  entry, `setdefault` appends only when the key is absent.
* Fallible Python code (code that can raise) is modelled with `Option`
  or `Except`.
* The unbounded `while` loop of `_search` is modelled with explicit
  fuel; the fuel supplied is sufficient for every run in which the loop
  terminates (it is proved sufficient in the terminating theorems).
-/

/-! ## Python dict model -/

section PyDict

variable {κ α : Type} [DecidableEq κ]

/-- Lookup in an insertion-ordered association list, as Python `d[k]` /
`d.get(k)`. -/
def dictGet : List (κ × α) → κ → Option α
  | [], _ => none
  | kv :: t, k => if kv.1 = k then some kv.2 else dictGet t k

/-- Python `d[k] = v`: replace in place when the key exists, else append. -/
def dictSet : List (κ × α) → κ → α → List (κ × α)
  | [], k, v => [(k, v)]
  | kv :: t, k, v => if kv.1 = k then (k, v) :: t else kv :: dictSet t k v

/-- Python `del d[k]` / the removal part of `d.pop(k)`. -/
def dictErase : List (κ × α) → κ → List (κ × α)
  | [], _ => []
  | kv :: t, k => if kv.1 = k then t else kv :: dictErase t k

/-- Python `d.setdefault(k, v)`. -/
def dictSetdefault (d : List (κ × α)) (k : κ) (v : α) : List (κ × α) :=
  if (dictGet d k).isSome then d else d ++ [(k, v)]

/-- Python `d.update(e)`: entries of `e` folded into `d` in order. -/
def dictUpdate (d e : List (κ × α)) : List (κ × α) :=
  e.foldl (fun acc kv => dictSet acc kv.1 kv.2) d

/-- The keys of a dict, in insertion order. -/
def dictKeys (d : List (κ × α)) : List κ := d.map (·.1)

omit [DecidableEq κ] in
@[simp] theorem dictKeys_nil : dictKeys ([] : List (κ × α)) = [] := rfl

omit [DecidableEq κ] in
@[simp] theorem dictKeys_cons (kv : κ × α) (t : List (κ × α)) :
    dictKeys (kv :: t) = kv.1 :: dictKeys t := rfl

theorem dictGet_set_self (d : List (κ × α)) (k : κ) (v : α) :
    dictGet (dictSet d k v) k = some v := by
  induction d with
  | nil => simp [dictGet, dictSet]
  | cons kv t ih =>
    by_cases h : kv.1 = k
    · simp [dictSet, dictGet, h]
    · simp [dictSet, dictGet, h, ih]

theorem dictGet_set_ne (d : List (κ × α)) {k k' : κ} (v : α) (h : k' ≠ k) :
    dictGet (dictSet d k v) k' = dictGet d k' := by
  have h' : ¬(k = k') := fun hh => h hh.symm
  induction d with
  | nil => simp [dictGet, dictSet, h']
  | cons kv t ih =>
    by_cases hk : kv.1 = k
    · subst hk
      simp [dictSet, dictGet, h']
    · by_cases hk' : kv.1 = k'
      · simp [dictSet, dictGet, hk, hk', h]
      · simp [dictSet, dictGet, hk, hk', ih]

theorem dictGet_erase_ne (d : List (κ × α)) {k k' : κ} (h : k' ≠ k) :
    dictGet (dictErase d k) k' = dictGet d k' := by
  have h' : ¬(k = k') := fun hh => h hh.symm
  induction d with
  | nil => simp [dictErase]
  | cons kv t ih =>
    by_cases hk : kv.1 = k
    · subst hk
      simp [dictErase, dictGet, h']
    · by_cases hk' : kv.1 = k'
      · simp [dictErase, dictGet, hk, hk', h]
      · simp [dictErase, dictGet, hk, hk', ih]

theorem dictGet_eq_none_iff (d : List (κ × α)) (k : κ) :
    dictGet d k = none ↔ k ∉ dictKeys d := by
  induction d with
  | nil => simp [dictGet]
  | cons kv t ih =>
    by_cases h : kv.1 = k
    · simp [dictGet, h]
    · have h' : ¬(k = kv.1) := fun hh => h hh.symm
      simp [dictGet, h, h', ih]

theorem dictGet_isSome_iff (d : List (κ × α)) (k : κ) :
    (dictGet d k).isSome = true ↔ k ∈ dictKeys d := by
  rw [Option.isSome_iff_ne_none, not_iff_comm, ← dictGet_eq_none_iff]

theorem dictKeys_erase (d : List (κ × α)) (k : κ)
    (h : (dictKeys d).Nodup) :
    dictKeys (dictErase d k) = (dictKeys d).filter (fun x => decide (x ≠ k)) := by
  induction d with
  | nil => simp [dictErase]
  | cons kv t ih =>
    rw [dictKeys_cons, List.nodup_cons] at h
    by_cases hk : kv.1 = k
    · subst hk
      have herase : dictErase (kv :: t) kv.1 = t := by simp [dictErase]
      rw [herase, dictKeys_cons, List.filter_cons]
      have hd : decide (kv.1 ≠ kv.1) = false := by simp
      rw [hd]
      simp only [Bool.false_eq_true, if_false]
      refine (List.filter_eq_self.2 ?_).symm
      intro x hx
      have : x ≠ kv.1 := fun hh => h.1 (hh ▸ hx)
      simpa using this
    · simp only [dictErase, if_neg hk, dictKeys_cons, List.filter_cons, ih h.2]
      simp [hk]

theorem dictGet_erase_self (d : List (κ × α)) (k : κ)
    (h : (dictKeys d).Nodup) :
    dictGet (dictErase d k) k = none := by
  rw [dictGet_eq_none_iff, dictKeys_erase d k h]
  simp

theorem dictKeys_set (d : List (κ × α)) (k : κ) (v : α) :
    dictKeys (dictSet d k v) =
      if k ∈ dictKeys d then dictKeys d else dictKeys d ++ [k] := by
  induction d with
  | nil => simp [dictSet]
  | cons kv t ih =>
    by_cases h : kv.1 = k
    · subst h
      have hset : dictSet (kv :: t) kv.1 v = (kv.1, v) :: t := by simp [dictSet]
      rw [hset, dictKeys_cons, dictKeys_cons, if_pos (List.mem_cons_self _ _)]
    · have h' : ¬(k = kv.1) := fun hh => h hh.symm
      simp only [dictSet, if_neg h, dictKeys_cons, ih]
      by_cases hm : k ∈ dictKeys t
      · rw [if_pos hm, if_pos (by simp [hm])]
      · rw [if_neg hm, if_neg (by simp [hm, h']), List.cons_append]

theorem dictGet_append_single_ne (d : List (κ × α)) {k k' : κ} (v : α)
    (h : k' ≠ k) :
    dictGet (d ++ [(k, v)]) k' = dictGet d k' := by
  have h' : ¬(k = k') := fun hh => h hh.symm
  induction d with
  | nil => simp [dictGet, h']
  | cons kv t ih =>
    by_cases hk : kv.1 = k'
    · simp [dictGet, hk]
    · simp [dictGet, hk, ih]

theorem dictGet_setdefault_ne (d : List (κ × α)) {k k' : κ} (v : α)
    (h : k' ≠ k) :
    dictGet (dictSetdefault d k v) k' = dictGet d k' := by
  unfold dictSetdefault
  by_cases hs : (dictGet d k).isSome
  · simp [hs]
  · simp only [hs, Bool.false_eq_true, if_false]
    exact dictGet_append_single_ne d v h

theorem dictGet_setdefault_self (d : List (κ × α)) (k : κ) (v : α) :
    dictGet (dictSetdefault d k v) k = (dictGet d k).or (some v) := by
  unfold dictSetdefault
  cases hs : dictGet d k with
  | some w => simp [hs]
  | none =>
    simp only [hs, Option.isSome_none, Bool.false_eq_true, if_false, Option.or]
    induction d with
    | nil => simp [dictGet]
    | cons kv t ih =>
      by_cases hk : kv.1 = k
      · simp [dictGet, hk] at hs
      · simp only [dictGet, hk] at hs
        simp [dictGet, hk, ih hs]

theorem dictGet_update (d e : List (κ × α)) (k : κ)
    (he : (dictKeys e).Nodup) :
    dictGet (dictUpdate d e) k = (dictGet e k).or (dictGet d k) := by
  induction e generalizing d with
  | nil => simp [dictUpdate, dictGet]
  | cons kv t ih =>
    rw [dictKeys_cons, List.nodup_cons] at he
    have step : dictUpdate d (kv :: t) = dictUpdate (dictSet d kv.1 kv.2) t := rfl
    rw [step, ih _ he.2]
    by_cases h : kv.1 = k
    · subst h
      have ht : dictGet t kv.1 = none := (dictGet_eq_none_iff t kv.1).2 he.1
      simp [dictGet, ht, dictGet_set_self]
    · have h' : k ≠ kv.1 := fun hh => h hh.symm
      simp [dictGet, h, dictGet_set_ne _ _ h']

theorem dictKeys_update (d e : List (κ × α)) (he : (dictKeys e).Nodup) :
    dictKeys (dictUpdate d e) =
      dictKeys d ++ (dictKeys e).filter (fun x => decide (x ∉ dictKeys d)) := by
  induction e generalizing d with
  | nil => simp [dictUpdate]
  | cons kv t ih =>
    rw [dictKeys_cons, List.nodup_cons] at he
    have step : dictUpdate d (kv :: t) = dictUpdate (dictSet d kv.1 kv.2) t := rfl
    have hs := dictKeys_set d kv.1 kv.2
    by_cases hm : kv.1 ∈ dictKeys d
    · have hseq : dictKeys (dictSet d kv.1 kv.2) = dictKeys d := by
        rw [hs, if_pos hm]
      rw [step, ih _ he.2, hseq, dictKeys_cons, List.filter_cons]
      simp [hm]
    · have hseq : dictKeys (dictSet d kv.1 kv.2) = dictKeys d ++ [kv.1] := by
        rw [hs, if_neg hm]
      rw [step, ih _ he.2, hseq, dictKeys_cons, List.filter_cons]
      have ht : (dictKeys t).filter (fun x => decide (x ∉ dictKeys d ++ [kv.1])) =
          (dictKeys t).filter (fun x => decide (x ∉ dictKeys d)) := by
        apply List.filter_congr
        intro x hx
        have hxk : x ≠ kv.1 := fun hh => he.1 (hh ▸ hx)
        simp [List.mem_append, hxk]
      rw [ht]
      simp [hm, List.append_assoc]

end PyDict

/-! ## Model of `src/evaluation_system/model/solr.py` (`SolrFindFiles`) -/

namespace SolrFindFiles

/-- A value in the search dictionary handed to `SolrFindFiles`: either a
scalar (string) value or a list of values (interpreted as an OR). -/
inductive SolrValue where
  | s (v : String)
  | l (vs : List String)
deriving DecidableEq

/-- The `special_keys` tuple of `_to_solr_query` (source line 35): keys
passed through verbatim instead of being turned into filter clauses. -/
def special_keys : List String := ["q", "fl", "fq", "facet.limit", "sort"]

/-- One rendered filter constraint (source lines 41-48): negation marker
handling, then `"%s:%s" % (key, value)` for a scalar or the
`" OR "`-joined per-value clauses for a list value. -/
def constraint_of (key : String) (v : SolrValue) : String :=
  let k := if key.endsWith "_not_" then "-" ++ key.dropRight 5 else key
  match v with
  | .s x => k ++ ":" ++ x
  | .l xs => String.intercalate " OR " (xs.map (fun x => k ++ ":" ++ x))

/-- The parameter list built by `SolrFindFiles._to_solr_query` (the list
handed to `urllib.parse.urlencode`; the percent-encoding itself is a
transport detail of the network layer and is not modelled). -/
def to_solr_query (pd : List (String × SolrValue)) : List (String × SolrValue) :=
  pd.map (fun kv =>
    if kv.1 ∈ special_keys then kv else ("fq", .s (constraint_of kv.1 kv.2)))

/-- A parsed Solr `select` response: `response.numFound`,
`response.start` and `response.docs` (restricted to the `file` field,
which is all `_search` reads from a record). -/
structure SolrResponse where
  numFound : Nat
  start : Nat
  docs : List String
deriving DecidableEq

/-- The synthetic indexed backend for a fixed query: a fixed store of
matching documents, already in the order induced by the `sort`
parameter. A request `select?start=...&rows=...` returns the total
match count, the echoed start offset (0 for the probe request, which
carries no `start` parameter) and the requested page slice. -/
def backendPage (allDocs : List String) (start rows : Nat) : SolrResponse :=
  { numFound := allDocs.length, start := start, docs := (allDocs.drop start).take rows }

/-- An element of the stream produced by `_search`: either the metadata
record (a page response with the `docs` entry deleted, source lines
88-92) or one document (the `file` field of a returned record). -/
inductive SearchItem where
  | meta (numFound : Nat) (start : Nat)
  | doc (file : String)
deriving DecidableEq

/-- The `while results_to_visit > 0` loop of `_search` (source lines
83-98), with explicit fuel. Returns the yielded stream and the number
of page requests issued. Per iteration: `batch_size = min(batch_size,
results_to_visit)`; one page request at the current offset; the
one-shot metadata record if still pending; one yielded document per
returned record, each decrementing `results_to_visit`; finally
`offset = answer.start + batch_size`. -/
def searchLoop (allDocs : List String) :
    Nat → Nat → Nat → Nat → Bool → List SearchItem × Nat
  | 0, _, _, _, _ => ([], 0)
  | fuel + 1, batch, offset, rtv, rmeta =>
    if rtv > 0 then
      let bs := min batch rtv
      let ans := backendPage allDocs offset bs
      let metaItems : List SearchItem :=
        if rmeta then [.meta ans.numFound ans.start] else []
      let rest := searchLoop allDocs fuel bs (ans.start + bs) (rtv - ans.docs.length) false
      (metaItems ++ ans.docs.map .doc ++ rest.1, rest.2 + 1)
    else ([], 0)

/-- `_search` after query preparation: the zero-row probe request
(`select?facet=true&rows=0&...`, source line 81) establishing
`results_to_visit`, then the pagination loop. `offset` is the `start`
value popped from the search dictionary (0 by default). The fuel
`probe.numFound` is sufficient whenever `offset = 0` (proved below);
with a nonzero caller-supplied offset the Python loop does not
terminate, which the fuel cuts off. -/
def searchFrom (allDocs : List String) (batch offset : Nat) (rmeta : Bool) :
    List SearchItem × Nat :=
  let probe := backendPage allDocs 0 0
  searchLoop allDocs probe.numFound batch offset probe.numFound rmeta

/-- Lines 74-79 of `_search`, dictionary part: after popping `start`,
install the defaults `q=*:*` and `fl=file`, move a `text` constraint
into `q`, and overwrite `sort` with `file desc`. -/
def search_prepared (pd : List (String × SolrValue)) : List (String × SolrValue) :=
  let d0 := dictErase pd "start"
  let d1 := dictSetdefault d0 "q" (.s "*:*")
  let d2 := dictSetdefault d1 "fl" (.s "file")
  let d3 := match dictGet d2 "text" with
    | some tv => dictSet (dictErase d2 "text") "q" tv
    | none => d2
  dictSet d3 "sort" (.s "file desc")

/-- Line 74 of `_search`: `offset = int(partial_dict.pop("start", "0"))`.
(`int(...)` of a non-numeric string raises in Python; that failure is
outside the properties proved here and is modelled as 0.) -/
def search_offset (pd : List (String × SolrValue)) : Nat :=
  match dictGet pd "start" with
  | some (.s sv) => sv.toNat?.getD 0
  | _ => 0

/-- Lexicographic comparison of code-point sequences, as Python string
`<`. -/
def charListLt : List Char → List Char → Bool
  | [], [] => false
  | [], _ :: _ => true
  | _ :: _, [] => false
  | a :: as, b :: bs => if a < b then true else if b < a then false else charListLt as bs

/-- One insertion step of a descending (largest first) sort by path. -/
def insertDesc (x : String) : List String → List String
  | [] => [x]
  | y :: t => if charListLt y.toList x.toList then x :: y :: t else y :: insertDesc x t

/-- One insertion step of an ascending sort by path. -/
def insertAsc (x : String) : List String → List String
  | [] => [x]
  | y :: t => if charListLt x.toList y.toList then x :: y :: t else y :: insertAsc x t

/-- The fixed backend data ordered descending by the `file` field. -/
def sortFileDesc (data : List String) : List String := data.foldr insertDesc []

/-- The fixed backend data ordered ascending by the `file` field. -/
def sortFileAsc (data : List String) : List String := data.foldr insertAsc []

/-- The document order the Solr core serves for a fixed data set, as a
function of the `sort` parameter of the query. -/
def backendDocs (data : List String) (sortv : Option SolrValue) : List String :=
  match sortv with
  | some (.s "file desc") => sortFileDesc data
  | some (.s "file asc") => sortFileAsc data
  | _ => data

/-- A full `_search` run against a backend holding the fixed matching
set `data`: prepare the dictionary, let the backend order the documents
per the effective `sort` parameter, then run the paginated executor. -/
def search_run (data : List String) (pd : List (String × SolrValue))
    (batch : Nat) (rmeta : Bool) : List SearchItem × Nat :=
  searchFrom (backendDocs data (dictGet (search_prepared pd) "sort"))
    batch (search_offset pd) rmeta

/-- Python `str.strip()` on a code-point sequence. -/
def pyStrip (l : List Char) : List Char :=
  ((l.dropWhile Char.isWhitespace).reverse.dropWhile Char.isWhitespace).reverse

/-- The `facets` argument of `_facets`: `None`, a single
(possibly comma-delimited) string, or a list of field names. -/
inductive FacetsArg where
  | noneArg
  | strArg (s : List Char)
  | listArg (l : List (List Char))
deriving DecidableEq

/-- Lines 117-122 of `_facets`: a truthy non-list argument is split on
commas (with per-field `strip`) when it contains one, else wrapped in a
singleton list. A falsy string (only the empty string) and every list
pass through unchanged. -/
def facets_normalize : FacetsArg → FacetsArg
  | .strArg s =>
    if s = [] then .strArg s
    else if ',' ∈ s then .listArg ((s.splitOn ',').map pyStrip)
    else .listArg [s]
  | x => x

/-- The denylist subtracted from the schema fields (source lines
133-147). -/
def facetExcluded : List (List Char) :=
  [[], "_version_".toList, "file_no_version".toList, "level".toList,
   "timestamp".toList, "time".toList, "creation_time".toList,
   "source".toList, "version".toList, "file".toList, "file_name".toList]

/-- Lines 124-127 of `_facets`: move a `text` constraint into `q`, else
set `q` to the match-all query. -/
def facets_prepare (pd : List (String × SolrValue)) : List (String × SolrValue) :=
  match dictGet pd "text" with
  | some tv => dictSet (dictErase pd "text") "q" tv
  | none => dictSet pd "q" (.s "*:*")

/-- The `facet.field` suffix appended to the query string (source lines
149-153); empty when the facet field list is falsy. -/
def facet_suffix (fields : List (List Char)) : List Char :=
  if fields = [] then []
  else "&facet=true&facet.sort=index&facet.mincount=1&facet.field=".toList
       ++ List.intercalate "&facet.field=".toList fields

/-- The facet query built by `_facets` for a fixed backend schema
`allFields` (the result of `get_solr_fields`): the translated parameter
list of the prepared dictionary plus the facet suffix. With `facets`
equal to `None` the fields default to the schema minus the denylist
(the source builds a Python set here, whose iteration order is
arbitrary; the model keeps schema order). A string surviving
normalization is the empty string, which is falsy and contributes no
facet fields. The dead `latest_version` grouping branch (line 155,
`pragma: no cover`) is not modelled. -/
def facets_query (allFields : List (List Char)) (facets0 : FacetsArg)
    (pd : List (String × SolrValue)) : List (String × SolrValue) × List Char :=
  let f1 := facets_normalize facets0
  let params := to_solr_query (facets_prepare pd)
  let suffix := match f1 with
    | .noneArg => facet_suffix (allFields.filter (fun x => decide (x ∉ facetExcluded)))
    | .strArg _ => []
    | .listArg l => facet_suffix l
  (params, suffix)

/-! ### Pagination lemmas -/

theorem searchLoop_items (allDocs : List String) :
    ∀ (fuel batch offset rtv : Nat) (rmeta : Bool),
      1 ≤ batch → offset + rtv = allDocs.length → rtv ≤ fuel →
      (searchLoop allDocs fuel batch offset rtv rmeta).1 =
        (if 0 < rtv ∧ rmeta = true then [.meta allDocs.length offset] else [])
          ++ (allDocs.drop offset).map .doc := by
  intro fuel
  induction fuel with
  | zero =>
    intro batch offset rtv rmeta _ hsum hf
    have hrtv : rtv = 0 := Nat.le_zero.1 hf
    subst hrtv
    have hoff : offset = allDocs.length := by omega
    simp [searchLoop, hoff, List.drop_length]
  | succ fuel ih =>
    intro batch offset rtv rmeta hb hsum hf
    by_cases hr : 0 < rtv
    · have hbs1 : 1 ≤ min batch rtv := le_min hb hr
      have hlen : ((allDocs.drop offset).take (min batch rtv)).length = min batch rtv := by
        rw [List.length_take, List.length_drop]
        omega
      rw [searchLoop]
      simp only [if_pos hr, backendPage]
      rw [hlen]
      have hrec := ih (min batch rtv) (offset + min batch rtv) (rtv - min batch rtv) false
        hbs1 (by omega) (by omega)
      simp only [Bool.false_eq_true, and_false, if_false, List.nil_append] at hrec
      rw [hrec]
      have hdd : allDocs.drop (offset + min batch rtv) =
          (allDocs.drop offset).drop (min batch rtv) := by
        rw [List.drop_drop, Nat.add_comm]
      rw [hdd, List.append_assoc, ← List.map_append, List.take_append_drop]
      cases rmeta <;> simp [hr]
    · have hrtv : rtv = 0 := by omega
      subst hrtv
      have hoff : offset = allDocs.length := by omega
      simp [searchLoop, hoff, List.drop_length]

theorem searchLoop_items_nometa (allDocs : List String)
    (fuel batch offset rtv : Nat)
    (hb : 1 ≤ batch) (hsum : offset + rtv = allDocs.length) (hf : rtv ≤ fuel) :
    (searchLoop allDocs fuel batch offset rtv false).1 =
      (allDocs.drop offset).map .doc := by
  rw [searchLoop_items allDocs fuel batch offset rtv false hb hsum hf]
  simp

theorem searchLoop_calls_congr (d1 d2 : List String)
    (h : d1.length = d2.length) :
    ∀ (fuel batch offset rtv : Nat) (m1 m2 : Bool),
      (searchLoop d1 fuel batch offset rtv m1).2 =
        (searchLoop d2 fuel batch offset rtv m2).2 := by
  intro fuel
  induction fuel with
  | zero => intro batch offset rtv m1 m2; simp [searchLoop]
  | succ fuel ih =>
    intro batch offset rtv m1 m2
    by_cases hr : 0 < rtv
    · rw [searchLoop, searchLoop]
      simp only [if_pos hr, backendPage]
      have hl1 : ((d1.drop offset).take (min batch rtv)).length =
          min (min batch rtv) (d1.length - offset) := by
        rw [List.length_take, List.length_drop]
      have hl2 : ((d2.drop offset).take (min batch rtv)).length =
          min (min batch rtv) (d2.length - offset) := by
        rw [List.length_take, List.length_drop]
      rw [hl1, hl2, h]
      rw [ih (min batch rtv) (offset + min batch rtv)
        (rtv - min (min batch rtv) (d2.length - offset)) false false]
    · rw [searchLoop, searchLoop]
      simp [hr]

theorem searchFrom_items (allDocs : List String) (batch : Nat) (rmeta : Bool)
    (hb : 1 ≤ batch) :
    (searchFrom allDocs batch 0 rmeta).1 =
      (if 0 < allDocs.length ∧ rmeta = true then [.meta allDocs.length 0] else [])
        ++ allDocs.map .doc := by
  have h1 : searchFrom allDocs batch 0 rmeta =
      searchLoop allDocs allDocs.length batch 0 allDocs.length rmeta := rfl
  rw [h1, searchLoop_items allDocs allDocs.length batch 0 allDocs.length rmeta hb
    (by omega) (le_refl _)]
  simp

end SolrFindFiles

/-! ### Generic dict lemmas used by the solr theorems -/

theorem dictKeys_erase_nodup {κ α : Type} [DecidableEq κ] (d : List (κ × α)) (k : κ)
    (h : (dictKeys d).Nodup) : (dictKeys (dictErase d k)).Nodup := by
  rw [dictKeys_erase d k h]
  exact h.filter _

theorem dictKeys_setdefault_nodup {κ α : Type} [DecidableEq κ] (d : List (κ × α))
    (k : κ) (v : α) (h : (dictKeys d).Nodup) :
    (dictKeys (dictSetdefault d k v)).Nodup := by
  unfold dictSetdefault
  by_cases hs : (dictGet d k).isSome
  · simp [hs, h]
  · simp only [hs, Bool.false_eq_true, if_false]
    have hk : k ∉ dictKeys d := by
      rw [← dictGet_eq_none_iff]
      exact Option.not_isSome_iff_eq_none.1 hs
    have hkeys : dictKeys (d ++ [(k, v)]) = dictKeys d ++ [k] := by
      simp [dictKeys]
    rw [hkeys]
    simp [List.nodup_append, h, hk]

theorem dictKeys_set_nodup {κ α : Type} [DecidableEq κ] (d : List (κ × α))
    (k : κ) (v : α) (h : (dictKeys d).Nodup) :
    (dictKeys (dictSet d k v)).Nodup := by
  rw [dictKeys_set]
  by_cases hm : k ∈ dictKeys d
  · simpa [hm] using h
  · simp [hm, List.nodup_append, h]

theorem key_not_mem_of_get_none {κ α : Type} [DecidableEq κ]
    {d : List (κ × α)} {k : κ} (h : dictGet d k = none) :
    ∀ kv ∈ d, kv.1 ≠ k := by
  intro kv hkv he
  have hmem : k ∈ dictKeys d := he ▸ List.mem_map_of_mem _ hkv
  exact (dictGet_eq_none_iff d k).1 h hmem

namespace SolrFindFiles

/-! ### Preparation lemmas for `_search` and `_facets` -/

theorem search_prepared_sort (pd : List (String × SolrValue)) :
    dictGet (search_prepared pd) "sort" = some (.s "file desc") :=
  dictGet_set_self _ _ _

theorem search_offset_zero (pd : List (String × SolrValue))
    (h : "start" ∉ dictKeys pd) : search_offset pd = 0 := by
  unfold search_offset
  rw [(dictGet_eq_none_iff pd "start").2 h]

theorem backendDocs_desc (data : List String) :
    backendDocs data (some (.s "file desc")) = sortFileDesc data := rfl

theorem search_run_eq (data : List String) (pd : List (String × SolrValue))
    (batch : Nat) (rmeta : Bool) (hstart : "start" ∉ dictKeys pd) :
    search_run data pd batch rmeta = searchFrom (sortFileDesc data) batch 0 rmeta := by
  unfold search_run
  rw [search_prepared_sort, search_offset_zero pd hstart, backendDocs_desc]

theorem insertDesc_length (x : String) (l : List String) :
    (insertDesc x l).length = l.length + 1 := by
  induction l with
  | nil => rfl
  | cons y t ih =>
    cases h : charListLt y.data x.data with
    | true => simp [insertDesc, h]
    | false => simp [insertDesc, h, ih]

theorem sortFileDesc_length (l : List String) :
    (sortFileDesc l).length = l.length := by
  induction l with
  | nil => rfl
  | cons x t ih =>
    have : sortFileDesc (x :: t) = insertDesc x (sortFileDesc t) := rfl
    rw [this, insertDesc_length, ih]
    simp

end SolrFindFiles

namespace SolrFindFiles

/-- A synthetic 25-document backend used to pin down the number of page
requests. -/
def c1Docs : List String :=
  ["d01", "d02", "d03", "d04", "d05", "d06", "d07", "d08", "d09", "d10",
   "d11", "d12", "d13", "d14", "d15", "d16", "d17", "d18", "d19", "d20",
   "d21", "d22", "d23", "d24", "d25"]

/-- A map of `pyStrip` over a list of already-stripped names is the
identity. -/
theorem map_pyStrip_id (l : List (List Char)) (hl : ∀ n ∈ l, pyStrip n = n) :
    l.map pyStrip = l := by
  induction l with
  | nil => rfl
  | cons x xs ih =>
    rw [List.map_cons, hl x (List.mem_cons_self _ _),
      ih (fun n hn => hl n (List.mem_cons_of_mem _ hn))]

/-- Unfolding of `List.intercalate` over a two-or-more element list. -/
theorem intercalate_cons_two {α : Type} (sep : List α) (a b : List α)
    (t : List (List α)) :
    List.intercalate sep (a :: b :: t) = a ++ sep ++ List.intercalate sep (b :: t) := by
  simp [List.intercalate, List.intersperse_cons_cons, List.append_assoc]

/-- C1: for every backend holding exactly 25 documents matching a fixed
query, the paginated search executor with requested batch size 10
yields exactly the 25 documents in backend order — so 25 documents, no
path yielded twice, no matching path omitted — and the loop terminates
after the zero-row probe plus exactly 3 page requests. -/
theorem c1_pagination_batch10 (docs : List String)
    (h25 : docs.length = 25) (hnd : docs.Nodup) :
    (searchFrom docs 10 0 false).1 = docs.map SearchItem.doc ∧
    (searchFrom docs 10 0 false).1.length = 25 ∧
    (searchFrom docs 10 0 false).1.Nodup ∧
    (∀ d ∈ docs, SearchItem.doc d ∈ (searchFrom docs 10 0 false).1) ∧
    (searchFrom docs 10 0 false).2 = 3 := by
  have hitems : (searchFrom docs 10 0 false).1 = docs.map SearchItem.doc := by
    rw [searchFrom_items docs 10 false (by omega)]
    simp
  have hinj : Function.Injective SearchItem.doc := by
    intro a b hab
    cases hab
    rfl
  refine ⟨hitems, ?_, ?_, ?_, ?_⟩
  · rw [hitems, List.length_map, h25]
  · rw [hitems]
    exact hnd.map hinj
  · intro d hd
    rw [hitems]
    exact List.mem_map_of_mem _ hd
  · have e1 : (searchFrom docs 10 0 false).2 =
        (searchLoop docs docs.length 10 0 docs.length false).2 := rfl
    have e2 : (searchLoop c1Docs 25 10 0 25 false).2 = 3 := by decide
    have hcongr := searchLoop_calls_congr docs c1Docs (by rw [h25]; rfl)
      25 10 0 25 false false
    rw [e1, h25, hcongr, e2]

/-- C1 witness: the theorem instantiated at a concrete 25-document
backend. -/
theorem c1_pagination_batch10_witness :
    (searchFrom c1Docs 10 0 false).1 = c1Docs.map SearchItem.doc ∧
    (searchFrom c1Docs 10 0 false).2 = 3 :=
  ⟨(c1_pagination_batch10 c1Docs (by decide) (by decide)).1,
   (c1_pagination_batch10 c1Docs (by decide) (by decide)).2.2.2.2⟩

/-- C3 counterexample: on a backend with zero matching documents the
stream is empty even though the metadata record was requested — no
metadata record is emitted, contradicting the claim that one is always
emitted when requested. -/
theorem c3_metadata_counterexample :
    (search_run [] [] 10 true).1 = [] := by decide

/-- C3 (amended): when the metadata record is requested and at least one
document matches (and no start-offset override is given), exactly one
metadata record is emitted, as the first element of the stream, and it
equals the probe response summary (`numFound`, `start`) with the raw
document list removed; when metadata is not requested, the stream is
exactly the documents, with no metadata record. With zero matching
documents no metadata record is emitted at all (see the
counterexample). -/
theorem c3_metadata_emission (data : List String) (pd : List (String × SolrValue))
    (batch : Nat) (hb : 1 ≤ batch) (hstart : "start" ∉ dictKeys pd)
    (hne : data ≠ []) :
    (search_run data pd batch true).1 =
      SearchItem.meta (backendPage (sortFileDesc data) 0 0).numFound
          (backendPage (sortFileDesc data) 0 0).start
        :: (sortFileDesc data).map SearchItem.doc ∧
    (search_run data pd batch false).1 = (sortFileDesc data).map SearchItem.doc := by
  have hlen : 0 < (sortFileDesc data).length := by
    rw [sortFileDesc_length]
    cases data with
    | nil => exact absurd rfl hne
    | cons a t => simp
  constructor
  · rw [search_run_eq data pd batch true hstart,
      searchFrom_items (sortFileDesc data) batch true hb]
    rw [if_pos ⟨hlen, rfl⟩]
    rfl
  · rw [search_run_eq data pd batch false hstart,
      searchFrom_items (sortFileDesc data) batch false hb]
    simp

/-- C3 witness: the amended theorem instantiated at a two-document
backend. -/
theorem c3_metadata_emission_witness :
    (search_run ["a", "b"] [] 10 true).1 =
      SearchItem.meta (backendPage (sortFileDesc ["a", "b"]) 0 0).numFound
          (backendPage (sortFileDesc ["a", "b"]) 0 0).start
        :: (sortFileDesc ["a", "b"]).map SearchItem.doc ∧
    (search_run ["a", "b"] [] 10 false).1 =
      (sortFileDesc ["a", "b"]).map SearchItem.doc :=
  c3_metadata_emission ["a", "b"] [] 10 (by decide) (by decide) (by decide)

/-- C4 counterexample: a caller requesting ascending path order
(`sort=file asc`) still receives the documents in descending path
order, because `_search` overwrites the `sort` parameter — the claim
that documents appear in the caller-requested sort order is false. -/
theorem c4_sort_counterexample :
    (search_run ["a", "b"] [("sort", SolrValue.s "file asc")] 10 false).1 =
      [SearchItem.doc "b", SearchItem.doc "a"] ∧
    (search_run ["a", "b"] [("sort", SolrValue.s "file asc")] 10 false).1 ≠
      [SearchItem.doc "a", SearchItem.doc "b"] := by decide

/-- C4 (amended): `_search` unconditionally overwrites the `sort`
parameter with `file desc`, so for a fixed query and unchanging backend
data the stream always yields the documents in descending path order —
also when the caller supplied a different sort order, which is
ignored. -/
theorem c4_sort_clobbered (data : List String) (pd : List (String × SolrValue))
    (batch : Nat) (hb : 1 ≤ batch) (hstart : "start" ∉ dictKeys pd) :
    dictGet (search_prepared pd) "sort" = some (.s "file desc") ∧
    (search_run data pd batch false).1 = (sortFileDesc data).map SearchItem.doc := by
  refine ⟨search_prepared_sort pd, ?_⟩
  rw [search_run_eq data pd batch false hstart,
    searchFrom_items (sortFileDesc data) batch false hb]
  simp

/-- C4 witness: the amended theorem instantiated at a backend of two
documents and a caller who asked for ascending order. -/
theorem c4_sort_clobbered_witness :
    dictGet (search_prepared [("sort", SolrValue.s "file asc")]) "sort" =
      some (SolrValue.s "file desc") ∧
    (search_run ["a", "b"] [("sort", SolrValue.s "file asc")] 10 false).1 =
      (sortFileDesc ["a", "b"]).map SearchItem.doc :=
  c4_sort_clobbered ["a", "b"] [("sort", SolrValue.s "file asc")] 10
    (by decide) (by decide)

/-- C7: a constraint dictionary containing only reserved keys is passed
through `_to_solr_query` verbatim (each entry a named parameter, no
constructed `fq` filter clause), and in any dictionary each
reserved-key entry is emitted as itself, never as a filter clause. -/
theorem c7_reserved_keys (pd : List (String × SolrValue)) :
    ((∀ kv ∈ pd, kv.1 ∈ special_keys) → to_solr_query pd = pd) ∧
    (∀ x ∈ pd.zip (to_solr_query pd), x.1.1 ∈ special_keys → x.2 = x.1) := by
  have hmap : ∀ (l : List (String × SolrValue)),
      (∀ kv ∈ l, kv.1 ∈ special_keys) → to_solr_query l = l := by
    intro l
    induction l with
    | nil => intro _; rfl
    | cons kv t ih =>
      intro hl
      have hkv := hl kv (List.mem_cons_self _ _)
      have ht := ih (fun x hx => hl x (List.mem_cons_of_mem _ hx))
      simp only [to_solr_query, List.map_cons] at ht ⊢
      rw [if_pos hkv, ht]
  have hzip : ∀ (l : List (String × SolrValue)) x, x ∈ l.zip (to_solr_query l) →
      x.1.1 ∈ special_keys → x.2 = x.1 := by
    intro l
    induction l with
    | nil =>
      intro x hx
      simp [to_solr_query] at hx
    | cons kv t ih =>
      intro x hx hsp
      simp only [to_solr_query, List.map_cons, List.zip_cons_cons, List.mem_cons] at hx
      rcases hx with hx | hx
      · subst hx
        simp only at hsp
        simp [hsp]
      · exact ih x (by simpa [to_solr_query] using hx) hsp
  exact ⟨hmap pd, hzip pd⟩

/-- C7 witness: the theorem instantiated at an all-reserved dictionary
and at a reserved entry of a mixed dictionary. -/
theorem c7_reserved_keys_witness :
    to_solr_query [("q", SolrValue.s "x"), ("sort", SolrValue.s "file asc")] =
      [("q", SolrValue.s "x"), ("sort", SolrValue.s "file asc")] ∧
    (("sort", SolrValue.s "y") : String × SolrValue) = ("sort", SolrValue.s "y") :=
  ⟨(c7_reserved_keys [("q", SolrValue.s "x"), ("sort", SolrValue.s "file asc")]).1
      (by decide),
   (c7_reserved_keys [("model", SolrValue.s "m"), ("sort", SolrValue.s "y")]).2
      (("sort", SolrValue.s "y"), ("sort", SolrValue.s "y")) (by decide) (by decide)⟩

/-- C9: a `text` constraint is removed from the filter constraints by
both the indexed search and the facet operation, and its value is
installed as the free-text parameter `q` (replacing the default
match-all query); since the prepared dictionary no longer contains the
key, `text` never becomes an AND/OR filter clause. -/
theorem c9_text_constraint (pd : List (String × SolrValue)) (tv : SolrValue)
    (hwf : (dictKeys pd).Nodup) (htext : dictGet pd "text" = some tv) :
    dictGet (search_prepared pd) "text" = none ∧
    dictGet (search_prepared pd) "q" = some tv ∧
    (∀ kv ∈ search_prepared pd, kv.1 ≠ "text") ∧
    dictGet (facets_prepare pd) "text" = none ∧
    dictGet (facets_prepare pd) "q" = some tv ∧
    (∀ kv ∈ facets_prepare pd, kv.1 ≠ "text") := by
  have hget0 : dictGet (dictErase pd "start") "text" = some tv := by
    rw [dictGet_erase_ne pd (by decide : ("text" : String) ≠ "start")]
    exact htext
  have hn0 := dictKeys_erase_nodup pd "start" hwf
  have hget1 : dictGet (dictSetdefault (dictErase pd "start") "q"
      (SolrValue.s "*:*")) "text" = some tv := by
    rw [dictGet_setdefault_ne _ _ (by decide : ("text" : String) ≠ "q")]
    exact hget0
  have hn1 := dictKeys_setdefault_nodup _ "q" (SolrValue.s "*:*") hn0
  have hget2 : dictGet (dictSetdefault (dictSetdefault (dictErase pd "start") "q"
      (SolrValue.s "*:*")) "fl" (SolrValue.s "file")) "text" = some tv := by
    rw [dictGet_setdefault_ne _ _ (by decide : ("text" : String) ≠ "fl")]
    exact hget1
  have hn2 := dictKeys_setdefault_nodup _ "fl" (SolrValue.s "file") hn1
  have hform : search_prepared pd =
      dictSet (dictSet (dictErase (dictSetdefault (dictSetdefault
        (dictErase pd "start") "q" (SolrValue.s "*:*")) "fl" (SolrValue.s "file"))
        "text") "q" tv) "sort" (SolrValue.s "file desc") := by
    simp only [search_prepared]
    rw [hget2]
  have hs_text : dictGet (search_prepared pd) "text" = none := by
    rw [hform, dictGet_set_ne _ _ (by decide : ("text" : String) ≠ "sort"),
      dictGet_set_ne _ _ (by decide : ("text" : String) ≠ "q"),
      dictGet_erase_self _ _ hn2]
  have hs_q : dictGet (search_prepared pd) "q" = some tv := by
    rw [hform, dictGet_set_ne _ _ (by decide : ("q" : String) ≠ "sort"),
      dictGet_set_self]
  have hformf : facets_prepare pd = dictSet (dictErase pd "text") "q" tv := by
    unfold facets_prepare
    rw [htext]
  have hf_text : dictGet (facets_prepare pd) "text" = none := by
    rw [hformf, dictGet_set_ne _ _ (by decide : ("text" : String) ≠ "q"),
      dictGet_erase_self _ _ hwf]
  have hf_q : dictGet (facets_prepare pd) "q" = some tv := by
    rw [hformf, dictGet_set_self]
  exact ⟨hs_text, hs_q, key_not_mem_of_get_none hs_text, hf_text, hf_q,
    key_not_mem_of_get_none hf_text⟩

/-- C9 witness: the theorem instantiated at a concrete dictionary with a
`text` constraint. -/
theorem c9_text_constraint_witness :
    dictGet (search_prepared [("text", SolrValue.s "T"), ("model", SolrValue.s "m")])
      "text" = none ∧
    dictGet (search_prepared [("text", SolrValue.s "T"), ("model", SolrValue.s "m")])
      "q" = some (SolrValue.s "T") ∧
    dictGet (facets_prepare [("text", SolrValue.s "T"), ("model", SolrValue.s "m")])
      "text" = none ∧
    dictGet (facets_prepare [("text", SolrValue.s "T"), ("model", SolrValue.s "m")])
      "q" = some (SolrValue.s "T") :=
  ⟨(c9_text_constraint [("text", SolrValue.s "T"), ("model", SolrValue.s "m")]
      (SolrValue.s "T") (by decide) (by decide)).1,
   (c9_text_constraint [("text", SolrValue.s "T"), ("model", SolrValue.s "m")]
      (SolrValue.s "T") (by decide) (by decide)).2.1,
   (c9_text_constraint [("text", SolrValue.s "T"), ("model", SolrValue.s "m")]
      (SolrValue.s "T") (by decide) (by decide)).2.2.2.1,
   (c9_text_constraint [("text", SolrValue.s "T"), ("model", SolrValue.s "m")]
      (SolrValue.s "T") (by decide) (by decide)).2.2.2.2.1⟩

/-- C8: supplying the facet aggregator with a list of field names and
supplying it with the single comma-joined string of the same names
normalize to the same internal list, and therefore produce the same
facet query (for names that are nonempty, comma-free and without
surrounding whitespace, as facet field names are). -/
theorem c8_facets_arg_forms (L : List (List Char)) (hne : L ≠ [])
    (hnames : ∀ n ∈ L, n ≠ [] ∧ ',' ∉ n ∧ pyStrip n = n) :
    facets_normalize (.listArg L) = .listArg L ∧
    facets_normalize (.strArg (List.intercalate [','] L)) = .listArg L ∧
    (∀ (allFields : List (List Char)) (pd : List (String × SolrValue)),
      facets_query allFields (.listArg L) pd =
        facets_query allFields (.strArg (List.intercalate [','] L)) pd) := by
  have h2 : facets_normalize (.strArg (List.intercalate [','] L)) = .listArg L := by
    cases L with
    | nil => exact absurd rfl hne
    | cons a t =>
      cases t with
      | nil =>
        have ha := hnames a (List.mem_cons_self _ _)
        have hint : List.intercalate [','] [a] = a := by simp [List.intercalate]
        have hn : facets_normalize (.strArg a) =
            if a = [] then .strArg a
            else if ',' ∈ a then .listArg ((a.splitOn ',').map pyStrip)
            else .listArg [a] := rfl
        rw [hint, hn, if_neg ha.1, if_neg ha.2.1]
      | cons b t2 =>
        have hint := intercalate_cons_two [','] a b t2
        have hmem : ',' ∈ List.intercalate [','] (a :: b :: t2) := by
          rw [hint]
          simp
        have hs_ne : List.intercalate [','] (a :: b :: t2) ≠ [] :=
          List.ne_nil_of_mem hmem
        have hn : facets_normalize (.strArg (List.intercalate [','] (a :: b :: t2))) =
            if List.intercalate [','] (a :: b :: t2) = []
            then .strArg (List.intercalate [','] (a :: b :: t2))
            else if ',' ∈ List.intercalate [','] (a :: b :: t2)
            then .listArg (((List.intercalate [','] (a :: b :: t2)).splitOn ',').map pyStrip)
            else .listArg [List.intercalate [','] (a :: b :: t2)] := rfl
        rw [hn, if_neg hs_ne, if_pos hmem]
        have hsplit : (List.intercalate [','] (a :: b :: t2)).splitOn ',' =
            a :: b :: t2 :=
          List.splitOn_intercalate _ ',' (fun l hl => (hnames l hl).2.1) (by simp)
        rw [hsplit, map_pyStrip_id _ (fun n hn2 => (hnames n hn2).2.2)]
  refine ⟨rfl, h2, ?_⟩
  intro allFields pd
  have h1 : facets_normalize (.listArg L) = .listArg L := rfl
  simp only [facets_query]
  rw [h1, h2]

/-- C8 witness: the theorem instantiated at two concrete field names. -/
theorem c8_facets_arg_forms_witness :
    facets_normalize (.listArg ["project".toList, "model".toList]) =
      .listArg ["project".toList, "model".toList] ∧
    facets_normalize
        (.strArg (List.intercalate [','] ["project".toList, "model".toList])) =
      .listArg ["project".toList, "model".toList] ∧
    facets_query [] (.listArg ["project".toList, "model".toList]) [] =
      facets_query []
        (.strArg (List.intercalate [','] ["project".toList, "model".toList])) [] :=
  ⟨(c8_facets_arg_forms ["project".toList, "model".toList] (by decide) (by decide)).1,
   (c8_facets_arg_forms ["project".toList, "model".toList] (by decide) (by decide)).2.1,
   (c8_facets_arg_forms ["project".toList, "model".toList] (by decide) (by decide)).2.2
     [] []⟩

end SolrFindFiles

/-! ## Model of `src/model/file.py` (`BaselineFile`) -/

namespace BaselineFile

/-- A declared naming template (one entry of `BaselineFile.BASELINE`).
The `parts_time` entry of the source dictionaries is never read by the
code and is omitted. `parts_versioned_dataset` is `none` when the
template is not versionable (its absence from the source dict). -/
structure Baseline where
  root_dir : List Char
  parts_dir : List String
  parts_dataset : List String
  parts_versioned_dataset : Option (List String)
  parts_file_name : List String
  defaults : List (String × List Char)
deriving DecidableEq

/-- Baseline 0 (source lines 14-22). -/
def baseline0 : Baseline where
  root_dir := "/gpfs_750/projects/CMIP5/data".toList
  parts_dir := ["project", "product", "institute", "model", "experiment",
    "time_frequency", "realm", "cmor_table", "ensemble", "version",
    "variable", "file_name"]
  parts_dataset := ["project", "product", "institute", "model", "experiment",
    "time_frequency", "realm", "cmor_table", "ensemble"]
  parts_versioned_dataset := some ["project", "product", "institute", "model",
    "experiment", "time_frequency", "realm", "cmor_table", "ensemble", "version"]
  parts_file_name := ["variable", "cmor_table", "model", "experiment",
    "ensemble", "time"]
  defaults := [("project", "cmip5".toList), ("institute", "MPI-M".toList),
    ("model", "MPI-ESM-LR".toList)]

/-- Baseline 1 (source lines 24-31). -/
def baseline1 : Baseline where
  root_dir := "/miklip/global/prod/archive".toList
  parts_dir := ["project", "product", "institute", "model", "experiment",
    "time_frequency", "realm", "variable", "ensemble", "file_name"]
  parts_dataset := ["project", "product", "institute", "model", "experiment",
    "time_frequency", "realm", "variable", "ensemble"]
  parts_versioned_dataset := none
  parts_file_name := ["variable", "cmor_table", "model", "experiment",
    "ensemble", "time"]
  defaults := [("project", "baseline1".toList), ("product", "output".toList),
    ("institute", "MPI-M".toList), ("model", "MPI-ESM-LR".toList)]

/-- The fixed template registry `BaselineFile.BASELINE`. -/
def BASELINE : List Baseline := [baseline0, baseline1]

/-- `BaselineFile._get_baseline`: raises for an out-of-range number. -/
def get_baseline (nr : Nat) : Option Baseline := BASELINE.get? nr

/-- One decoded candidate: the `dict` of a `BaselineFile` instance —
`root_dir` plus the `parts` mapping and the baseline number. A part
value of `none` mirrors the Python `None` appended for the missing time
token of a `r0i0p0` no-time file name. -/
structure BLFile where
  root_dir : List Char
  parts : List (String × Option (List Char))
  baseline_nr : Nat
deriving DecidableEq

/-- The `BaselineFile.__init__` trimming of a trailing slash on
`root_dir`. -/
def rootTrim (l : List Char) : List Char :=
  if l.getLast? = some '/' then l.dropLast else l

/-- Constructing a `BaselineFile` from a result dict (`__init__`). -/
def mkBLFile (root : List Char) (parts : List (String × Option (List Char)))
    (nr : Nat) : BLFile :=
  ⟨rootTrim root, parts, nr⟩

/-- `os.path.join(a, b)` for the POSIX paths used here. -/
def pyJoin (a b : List Char) : List Char :=
  if a = [] then b
  else if b.head? = some '/' then b
  else if a.getLast? = some '/' then a ++ b
  else a ++ '/' :: b

/-- Lines 99-102 of `from_path`: check the root prefix
(`path.startswith(root_dir + '/')`), else raise; on success the path
remainder after the root and its slash. -/
def stripRoot (bl : Baseline) (path : List Char) : Option (List Char) :=
  if path.take (bl.root_dir ++ ['/']).length = bl.root_dir ++ ['/']
  then some (path.drop (bl.root_dir ++ ['/']).length)
  else none

/-- Lines 102-106 of `from_path`: split the remainder on `/` and check
the declared segment count, else raise. -/
def splitSegs (bl : Baseline) (rest : List Char) : Option (List (List Char)) :=
  if (rest.splitOn '/').length = bl.parts_dir.length
  then some (rest.splitOn '/') else none

/-- Lines 109-113 of `from_path`: assign each segment to its declared
name, in order, with dict-assignment semantics. -/
def dirParts (bl : Baseline) (segs : List (List Char)) :
    List (String × Option (List Char)) :=
  (bl.parts_dir.zip segs).foldl (fun d kv => dictSet d kv.1 (some kv.2)) []

/-- Lines 116-121 of `from_path`: strip the 3-character `.nc` suffix,
split the file name on `_`, append a `None` time token for the `r0i0p0`
one-token-short special case, and require enough tokens for the
declared names (an `IndexError` in the assignment loop is a failure). -/
def fileTokens (bl : Baseline) (fn : List Char) : Option (List (Option (List Char))) :=
  let fnParts := (fn.take (fn.length - 3)).splitOn '_'
  let tokens : List (Option (List Char)) :=
    if fnParts.length = bl.parts_file_name.length - 1 ∧ "r0i0p0".toList ∈ fnParts
    then fnParts.map some ++ [none]
    else fnParts.map some
  if bl.parts_file_name.length ≤ tokens.length then some tokens else none

/-- Lines 115-123 of `from_path`: read the `file_name` part (KeyError
is a failure), tokenize it and assign each token to its declared name,
overwriting directory parts of the same name. -/
def withFileParts (bl : Baseline) (m0 : List (String × Option (List Char))) :
    Option (List (String × Option (List Char))) :=
  match dictGet m0 "file_name" with
  | some (some fn) =>
    (fileTokens bl fn).map (fun tokens =>
      (bl.parts_file_name.zip tokens).foldl (fun d kv => dictSet d kv.1 kv.2) m0)
  | _ => none

/-- The body of `from_path` for a resolved baseline: root strip,
segment split, directory parts, file-name parts, construction. -/
def decodeWith (bl : Baseline) (path : List Char) (nr : Nat) : Option BLFile :=
  (stripRoot bl path).bind fun rest =>
  (splitSegs bl rest).bind fun segs =>
  (withFileParts bl (dirParts bl segs)).map fun m1 => mkBLFile bl.root_dir m1 nr

/-- `BaselineFile.from_path` (source lines 93-127). `os.path.realpath`
is modelled as the identity (the properties proved below hold for the
canonical paths `realpath` produces). Every failure mode of the source
(bad baseline number, root-prefix mismatch, wrong segment count,
missing `file_name` part, too few file-name tokens) is `none`. -/
def from_path (path : List Char) (nr : Nat) : Option BLFile :=
  (get_baseline nr).bind fun bl => decodeWith bl path nr

/-- `BaselineFile.to_path` (source lines 59-64): `os.path.join` of the
`parts_dir` values under the root. A missing part (KeyError) or a
`None` part value (TypeError inside `os.path.join`) is a failure. -/
def to_path (f : BLFile) : Option (List Char) :=
  (get_baseline f.baseline_nr).bind fun bl =>
    bl.parts_dir.foldlM (fun acc key =>
      match dictGet f.parts key with
      | some (some v) => some (pyJoin acc v)
      | _ => none) f.root_dir

/-- `BaselineFile.to_dataset` (source lines 66-78): join the dataset
part values with dots. Requesting the versioned variant of a
non-versionable template raises; a missing part raises. -/
def to_dataset (f : BLFile) (versioned : Bool) : Option (List Char) :=
  match get_baseline f.baseline_nr with
  | none => none
  | some bl =>
    match (if versioned then bl.parts_versioned_dataset else some bl.parts_dataset) with
    | none => none
    | some keys =>
      match keys.mapM (fun k =>
        match dictGet f.parts k with
        | some (some v) => some v
        | _ => none) with
      | none => none
      | some vals => some (List.intercalate ['.'] vals)

/-- `BaselineFile.get_version` (source lines 84-90): the `version` part
if present, else `None`. -/
def get_version (f : BLFile) : Option (List Char) :=
  match dictGet f.parts "version" with
  | some v => v
  | none => none

/-- Python `<` on optional version strings: lexicographic on code
points when both are strings; comparing `None` raises `TypeError`. -/
def pyLtOptStr : Option (List Char) → Option (List Char) → Option Bool
  | some a, some b => some (SolrFindFiles.charListLt a b)
  | _, _ => none

/-- The latest-version resolver of `BaselineFile.search` (source lines
182-200), applied to the sequence of decoded candidates produced by the
glob loop. With `latest_version` false each candidate passes through as
found; otherwise the `datasets` buffer keeps, per un-versioned dataset
key, only the candidates of the maximum version seen so far (all ties
retained), and is flattened once the upstream is exhausted. An
exception inside the loop (dataset extraction failure or a `TypeError`
from comparing a `None` version) is a failure. -/
def search_resolve (latest : Bool) (files : List BLFile) : Option (List BLFile) :=
  if latest = false then some files
  else
    match files.foldlM (fun ds blf =>
      match to_dataset blf false with
      | none => none
      | some key =>
        match dictGet ds key with
        | none => some (dictSet ds key [blf])
        | some lst =>
          match lst.head? with
          | none => none
          | some first =>
            match pyLtOptStr (get_version first) (get_version blf) with
            | none => none
            | some true => some (dictSet ds key [blf])
            | some false =>
              if get_version first = get_version blf
              then some (dictSet ds key (lst ++ [blf]))
              else some ds) ([] : List (List Char × List BLFile)) with
    | none => none
    | some ds => some (ds.foldl (fun acc kv => acc ++ kv.2) [])

/-- The path-pattern loop of `BaselineFile.search` (source lines
165-171): walk the declared segments in order, substituting the
constrained (or defaulted) value and deleting it from the working
dictionary, or a `*` wildcard when the segment is unconstrained.
Returns the glob pattern and the leftover dictionary. -/
def pathLoop : List String → List (String × List Char) → List Char →
    List Char × List (String × List Char)
  | [], sd, acc => (acc, sd)
  | key :: rest, sd, acc =>
    match dictGet sd key with
    | some v => pathLoop rest (dictErase sd key) (pyJoin acc v)
    | none => pathLoop rest sd (pyJoin acc "*".toList)

/-- Glob matching for the patterns `search` builds: each pattern
segment is either a literal or a lone `*`, and `*` in a glob does not
cross `/`; so a path matches when the segment counts agree and every
pattern segment is `*` or equal to the path segment. -/
def globMatch (pattern path : List Char) : Bool :=
  let ps := pattern.splitOn '/'
  let qs := path.splitOn '/'
  decide (ps.length = qs.length) &&
    (ps.zip qs).all (fun x => decide (x.1 = ['*']) || decide (x.1 = x.2))

/-- The failure modes of `BaselineFile.search`. -/
inductive SearchErr where
  | badBaseline (nr : Nat)
  | unknownConstraint (offending : List String) (nr : Nat) (valid : List String)
  | streamFailure
deriving DecidableEq

/-- `BaselineFile.search` (source lines 154-200) against an abstract
file system `fs` (the set of paths `glob.iglob` can see). The
unknown-constraint check fires after the pattern is built and before
any glob expansion; the `unknownConstraint` payload carries the
leftover constraint keys and the valid segment names, as the source
exception message does. A decode failure or resolver failure inside the
generator aborts the whole stream. -/
def search (fs : List (List Char)) (nr : Nat) (latest0 : Bool)
    (pd : List (String × List Char)) : Except SearchErr (List BLFile) :=
  match get_baseline nr with
  | none => .error (.badBaseline nr)
  | some bl =>
    let sd := dictUpdate bl.defaults pd
    let latest := if latest0 ∧ (0 < nr ∨ "version" ∈ dictKeys pd) then false else latest0
    let lp := pathLoop bl.parts_dir sd bl.root_dir
    if lp.2 ≠ [] then
      .error (.unknownConstraint (dictKeys lp.2) nr bl.parts_dir)
    else
      match (fs.filter (fun p => globMatch lp.1 p)).mapM (fun p => from_path p nr) with
      | none => .error .streamFailure
      | some files =>
        match search_resolve latest files with
        | none => .error .streamFailure
        | some out => .ok out

end BaselineFile

namespace BaselineFile

/-! ### Lemmas about the glob-pattern loop -/

theorem pathLoop_leftover_keys (names : List String) :
    ∀ (sd : List (String × List Char)) (acc : List Char),
      (dictKeys sd).Nodup →
      dictKeys (pathLoop names sd acc).2 =
        (dictKeys sd).filter (fun k => decide (k ∉ names)) := by
  induction names with
  | nil =>
    intro sd acc _
    simp [pathLoop]
  | cons n rest ih =>
    intro sd acc h
    cases hg : dictGet sd n with
    | some v =>
      have hstep : pathLoop (n :: rest) sd acc =
          pathLoop rest (dictErase sd n) (pyJoin acc v) := by
        simp [pathLoop, hg]
      rw [hstep, ih _ _ (dictKeys_erase_nodup sd n h), dictKeys_erase sd n h,
        List.filter_filter]
      apply List.filter_congr
      intro x hx
      by_cases hxn : x = n
      · simp [hxn]
      · by_cases hxr : x ∈ rest
        · simp [hxn, hxr]
        · simp [hxn, hxr]
    | none =>
      have hstep : pathLoop (n :: rest) sd acc =
          pathLoop rest sd (pyJoin acc "*".toList) := by
        simp [pathLoop, hg]
      rw [hstep, ih _ _ h]
      apply List.filter_congr
      intro x hx
      have hxn : x ≠ n := by
        intro he
        subst he
        exact ((dictGet_eq_none_iff sd x).1 hg) hx
      simp [hxn]

theorem pathLoop_path (names : List String) :
    ∀ (sd : List (String × List Char)) (acc : List Char),
      names.Nodup → (dictKeys sd).Nodup →
      (pathLoop names sd acc).1 =
        names.foldl (fun a k => pyJoin a ((dictGet sd k).getD "*".toList)) acc := by
  induction names with
  | nil =>
    intro sd acc _ _
    rfl
  | cons n rest ih =>
    intro sd acc hn hsd
    rw [List.nodup_cons] at hn
    cases hg : dictGet sd n with
    | some v =>
      have hstep : pathLoop (n :: rest) sd acc =
          pathLoop rest (dictErase sd n) (pyJoin acc v) := by
        simp [pathLoop, hg]
      rw [hstep, ih _ _ hn.2 (dictKeys_erase_nodup sd n hsd), List.foldl_cons, hg]
      apply List.foldl_ext
      intro a k hk
      have hkn : k ≠ n := fun he => hn.1 (he ▸ hk)
      rw [dictGet_erase_ne sd hkn]
    | none =>
      have hstep : pathLoop (n :: rest) sd acc =
          pathLoop rest sd (pyJoin acc "*".toList) := by
        simp [pathLoop, hg]
      rw [hstep, ih _ _ hn.2 hsd, List.foldl_cons, hg]
      rfl

theorem dictKeys_update_nodup {κ α : Type} [DecidableEq κ] (d e : List (κ × α))
    (hd : (dictKeys d).Nodup) (he : (dictKeys e).Nodup) :
    (dictKeys (dictUpdate d e)).Nodup := by
  rw [dictKeys_update d e he]
  refine List.Nodup.append hd (he.filter _) ?_
  intro x hxd hxf
  have := List.of_mem_filter hxf
  simp at this
  exact this hxd

/-- The leftover keys of the pattern loop of `search`, for a baseline
whose default keys all are declared segments: exactly the constraint
keys that match no declared segment. -/
theorem search_leftover_keys (bl : Baseline) (pd : List (String × List Char))
    (hwf : (dictKeys pd).Nodup)
    (hsub : ∀ k ∈ dictKeys bl.defaults, k ∈ bl.parts_dir)
    (hdn : (dictKeys bl.defaults).Nodup) :
    dictKeys (pathLoop bl.parts_dir (dictUpdate bl.defaults pd) bl.root_dir).2 =
      (dictKeys pd).filter (fun k => decide (k ∉ bl.parts_dir)) := by
  rw [pathLoop_leftover_keys _ _ _ (dictKeys_update_nodup _ _ hdn hwf),
    dictKeys_update _ _ hwf, List.filter_append]
  have h1 : (dictKeys bl.defaults).filter
      (fun k => decide (k ∉ bl.parts_dir)) = [] := by
    rw [List.filter_eq_nil_iff]
    intro a ha
    simpa using hsub a ha
  rw [h1, List.nil_append, List.filter_filter]
  apply List.filter_congr
  intro x hx
  by_cases hxp : x ∈ bl.parts_dir
  · simp [hxp]
  · have hxd : x ∉ dictKeys bl.defaults := fun hc => hxp (hsub x hc)
    simp [hxp, hxd]

end BaselineFile

namespace BaselineFile

/-- Any baseline resolved by `_get_baseline` is one of the two declared
templates. -/
theorem get_baseline_cases (nr : Nat) (bl : Baseline)
    (hbl : get_baseline nr = some bl) : bl = baseline0 ∨ bl = baseline1 := by
  cases nr with
  | zero =>
    left
    have h : some baseline0 = some bl := hbl
    exact (Option.some.inj h).symm
  | succ m =>
    cases m with
    | zero =>
      right
      have h : some baseline1 = some bl := hbl
      exact (Option.some.inj h).symm
    | succ p =>
      exact absurd hbl (by simp [get_baseline, BASELINE])

/-- C6: a file-system search whose constraint set contains a key that is
not a declared path segment fails with an unknown-constraint error that
carries exactly the offending keys and the list of valid segment names,
and it does so for every file system — the error is produced before any
glob access. -/
theorem c6_unknown_constraint (nr : Nat) (bl : Baseline)
    (pd : List (String × List Char)) (latest0 : Bool)
    (hbl : get_baseline nr = some bl) (hwf : (dictKeys pd).Nodup)
    (hbad : ∃ k ∈ dictKeys pd, k ∉ bl.parts_dir) :
    (dictKeys pd).filter (fun k => decide (k ∉ bl.parts_dir)) ≠ [] ∧
    (∀ k ∈ dictKeys pd, k ∉ bl.parts_dir →
      k ∈ (dictKeys pd).filter (fun k2 => decide (k2 ∉ bl.parts_dir))) ∧
    (∀ fs : List (List Char), search fs nr latest0 pd =
      .error (.unknownConstraint
        ((dictKeys pd).filter (fun k => decide (k ∉ bl.parts_dir)))
        nr bl.parts_dir)) := by
  have hblc := get_baseline_cases nr bl hbl
  have hsub : ∀ k ∈ dictKeys bl.defaults, k ∈ bl.parts_dir := by
    rcases hblc with h | h <;> subst h <;> decide
  have hdn : (dictKeys bl.defaults).Nodup := by
    rcases hblc with h | h <;> subst h <;> decide
  have hkeys := search_leftover_keys bl pd hwf hsub hdn
  obtain ⟨k0, hk0, hk0n⟩ := hbad
  have hkmem : k0 ∈ (dictKeys pd).filter (fun k => decide (k ∉ bl.parts_dir)) :=
    List.mem_filter.2 ⟨hk0, by simpa using hk0n⟩
  have hne : (dictKeys pd).filter (fun k => decide (k ∉ bl.parts_dir)) ≠ [] :=
    List.ne_nil_of_mem hkmem
  refine ⟨hne, ?_, ?_⟩
  · intro k hk hknot
    exact List.mem_filter.2 ⟨hk, by simpa using hknot⟩
  · intro fs
    have hlp2ne :
        (pathLoop bl.parts_dir (dictUpdate bl.defaults pd) bl.root_dir).2 ≠ [] := by
      intro hnil
      rw [hnil] at hkeys
      exact hne (by simpa using hkeys.symm)
    simp only [search, hbl]
    rw [if_pos hlp2ne, hkeys]

/-- C6 witness: the theorem instantiated at baseline 0 and the bogus
constraint key `bogus`, with the empty and hence arbitrary file
system. -/
theorem c6_unknown_constraint_witness :
    (dictKeys [("bogus", "x".toList)]).filter
      (fun k => decide (k ∉ baseline0.parts_dir)) ≠ [] ∧
    search [] 0 true [("bogus", "x".toList)] =
      .error (.unknownConstraint
        ((dictKeys [("bogus", "x".toList)]).filter
          (fun k => decide (k ∉ baseline0.parts_dir))) 0 baseline0.parts_dir) :=
  ⟨(c6_unknown_constraint 0 baseline0 [("bogus", "x".toList)] true rfl
      (by decide) (by decide)).1,
   (c6_unknown_constraint 0 baseline0 [("bogus", "x".toList)] true rfl
      (by decide) (by decide)).2.2 []⟩

/-- C10: the glob pattern built by `search` substitutes, for each
declared segment, the caller value when the segment is constrained, the
declared default when it is not constrained but has a default, and a
`*` wildcard only when it has neither; a caller constraint overrides
the default (the defaults dict is copied and then updated with the
caller constraints). -/
theorem c10_default_segments (nr : Nat) (bl : Baseline)
    (pd : List (String × List Char))
    (hbl : get_baseline nr = some bl) (hwf : (dictKeys pd).Nodup) :
    ((pathLoop bl.parts_dir (dictUpdate bl.defaults pd) bl.root_dir).1 =
      bl.parts_dir.foldl (fun a k =>
        pyJoin a (((dictGet pd k).or (dictGet bl.defaults k)).getD "*".toList))
        bl.root_dir) ∧
    (∀ (k : String) (v : List Char), dictGet pd k = some v →
      ((dictGet pd k).or (dictGet bl.defaults k)).getD "*".toList = v) ∧
    (∀ (k : String) (v : List Char), dictGet pd k = none →
      dictGet bl.defaults k = some v →
      ((dictGet pd k).or (dictGet bl.defaults k)).getD "*".toList = v) ∧
    (∀ k : String, dictGet pd k = none → dictGet bl.defaults k = none →
      ((dictGet pd k).or (dictGet bl.defaults k)).getD "*".toList = "*".toList) := by
  have hblc := get_baseline_cases nr bl hbl
  have hpnd : bl.parts_dir.Nodup := by
    rcases hblc with h | h <;> subst h <;> decide
  have hdn : (dictKeys bl.defaults).Nodup := by
    rcases hblc with h | h <;> subst h <;> decide
  refine ⟨?_, ?_, ?_, ?_⟩
  · rw [pathLoop_path _ _ _ hpnd (dictKeys_update_nodup _ _ hdn hwf)]
    apply List.foldl_ext
    intro a k hk
    rw [dictGet_update bl.defaults pd k hwf]
  · intro k v hv
    simp [hv]
  · intro k v hn hv
    simp [hn, hv]
  · intro k hn hd
    simp [hn, hd]

/-- C10 witness: the theorem instantiated at baseline 0 with the single
constraint `variable=tas`. -/
theorem c10_default_segments_witness :
    (pathLoop baseline0.parts_dir
        (dictUpdate baseline0.defaults [("variable", "tas".toList)])
        baseline0.root_dir).1 =
      baseline0.parts_dir.foldl (fun a k =>
        pyJoin a (((dictGet [("variable", "tas".toList)] k).or
          (dictGet baseline0.defaults k)).getD "*".toList))
        baseline0.root_dir :=
  (c10_default_segments 0 baseline0 [("variable", "tas".toList)] rfl (by decide)).1

end BaselineFile

namespace BaselineFile

/-- Concrete baseline-0 path: dataset A at version v1. -/
def c2PathA1 : List Char :=
  "/gpfs_750/projects/CMIP5/data/p/o/i/m/e1/f/r/t/r1i1p1/v1/v/v_t_m_e1_r1i1p1_200101.nc".toList

/-- Concrete baseline-0 path: dataset A at version v2, variable v. -/
def c2PathA2 : List Char :=
  "/gpfs_750/projects/CMIP5/data/p/o/i/m/e1/f/r/t/r1i1p1/v2/v/v_t_m_e1_r1i1p1_200101.nc".toList

/-- Concrete baseline-0 path: dataset A at version v2, variable w (a
version tie with the previous candidate). -/
def c2PathA2b : List Char :=
  "/gpfs_750/projects/CMIP5/data/p/o/i/m/e1/f/r/t/r1i1p1/v2/w/w_t_m_e1_r1i1p1_200101.nc".toList

/-- Concrete baseline-0 path: dataset B (different experiment) at
version v1. -/
def c2PathB1 : List Char :=
  "/gpfs_750/projects/CMIP5/data/p/o/i/m/e2/f/r/t/r1i1p1/v1/v/v_t_m_e2_r1i1p1_200101.nc".toList

/-- The four decoded candidates A@1, A@2, A@2 (tie) and B@1. -/
def c2A1 : BLFile := (from_path c2PathA1 0).getD ⟨[], [], 0⟩

def c2A2 : BLFile := (from_path c2PathA2 0).getD ⟨[], [], 0⟩

def c2A2b : BLFile := (from_path c2PathA2b 0).getD ⟨[], [], 0⟩

def c2B1 : BLFile := (from_path c2PathB1 0).getD ⟨[], [], 0⟩

/-- The per-permutation check for the latest-version resolver: the
resolver keeps exactly the two tied maximum-version candidates of A and
the single candidate of B, and never A@1. -/
def c2Check (x : List BLFile) : Bool :=
  match search_resolve true x with
  | some r => decide (r.Perm [c2A2, c2A2b, c2B1]) && decide (c2A1 ∉ r)
  | none => false

theorem c2_candidates_decoded :
    from_path c2PathA1 0 = some c2A1 ∧ from_path c2PathA2 0 = some c2A2 ∧
    from_path c2PathA2b 0 = some c2A2b ∧ from_path c2PathB1 0 = some c2B1 := by
  decide

end BaselineFile

namespace BaselineFile

theorem c2_all_perms :
    ∀ x ∈ ([c2A1, c2A2, c2A2b, c2B1] : List BLFile).permutations',
      c2Check x = true := by decide

end BaselineFile

namespace BaselineFile

/-- C2: for every input order of decoded candidates over dataset keys A
and B with versions A@1, A@2, A@2 (a tie) and B@1, the latest-version
resolver with latest requested on the versionable baseline-0 template
yields exactly the multiset `{A@2, A@2, B@1}`: both tied
maximum-version candidates of A and the single candidate of B are kept,
and A@1 is never yielded. -/
theorem c2_latest_version_resolver (l : List BLFile)
    (hperm : l.Perm [c2A1, c2A2, c2A2b, c2B1]) :
    ∃ r, search_resolve true l = some r ∧
      r.Perm [c2A2, c2A2b, c2B1] ∧ c2A1 ∉ r := by
  have hmem : l ∈ ([c2A1, c2A2, c2A2b, c2B1] : List BLFile).permutations' :=
    List.mem_permutations'.2 hperm
  have hc := c2_all_perms l hmem
  unfold c2Check at hc
  cases hres : search_resolve true l with
  | none =>
    rw [hres] at hc
    exact absurd hc (by simp)
  | some r =>
    rw [hres] at hc
    simp only [Bool.and_eq_true, decide_eq_true_eq] at hc
    exact ⟨r, rfl, hc.1, hc.2⟩

/-- C2 witness: the theorem instantiated at one concrete input order. -/
theorem c2_latest_version_resolver_witness :
    c2A1 ∉ (search_resolve true [c2A1, c2A2, c2A2b, c2B1]).getD [] ∧
    ((search_resolve true [c2A1, c2A2, c2A2b, c2B1]).getD []).Perm
      [c2A2, c2A2b, c2B1] := by
  obtain ⟨r, hr, hp, hn⟩ :=
    c2_latest_version_resolver [c2A1, c2A2, c2A2b, c2B1] (List.Perm.refl _)
  rw [hr]
  simp only [Option.getD_some]
  exact ⟨hn, hp⟩

end BaselineFile

/-! ### Support lemmas for the round-trip theorem -/

theorem mem_of_getLast?_eq_some {α : Type} {l : List α} {x : α}
    (h : l.getLast? = some x) : x ∈ l := by
  obtain ⟨hne, heq⟩ := List.mem_getLast?_eq_getLast
    (show x ∈ l.getLast? from Option.mem_def.2 h)
  rw [heq]
  exact List.getLast_mem hne

theorem not_pred_of_mem_splitOnP {α : Type} (p : α → Bool) :
    ∀ (l : List α), ∀ l' ∈ l.splitOnP p, ∀ c ∈ l', ¬(p c = true) := by
  intro l
  induction l with
  | nil =>
    intro l' hl' c hc
    rw [List.splitOnP_nil] at hl'
    simp at hl'
    subst hl'
    simp at hc
  | cons a t ih =>
    intro l' hl' c hc
    rw [List.splitOnP_cons] at hl'
    by_cases hpa : p a
    · rw [if_pos hpa] at hl'
      rcases List.mem_cons.1 hl' with h | h
      · subst h
        simp at hc
      · exact ih l' h c hc
    · rw [if_neg hpa] at hl'
      cases hsp : t.splitOnP p with
      | nil => exact absurd hsp (List.splitOnP_ne_nil p t)
      | cons h0 rest =>
        rw [hsp] at hl'
        simp only [List.modifyHead] at hl'
        rcases List.mem_cons.1 hl' with h | h
        · subst h
          rcases List.mem_cons.1 hc with hc1 | hc2
          · subst hc1
            exact hpa
          · exact ih h0 (by rw [hsp]; exact List.mem_cons_self _ _) c hc2
        · exact ih l' (by rw [hsp]; exact List.mem_cons_of_mem _ h) c hc

theorem mem_of_mem_splitOnP {α : Type} (p : α → Bool) :
    ∀ (l : List α), ∀ l' ∈ l.splitOnP p, ∀ c ∈ l', c ∈ l := by
  intro l
  induction l with
  | nil =>
    intro l' hl' c hc
    rw [List.splitOnP_nil] at hl'
    simp at hl'
    subst hl'
    simp at hc
  | cons a t ih =>
    intro l' hl' c hc
    rw [List.splitOnP_cons] at hl'
    by_cases hpa : p a
    · rw [if_pos hpa] at hl'
      rcases List.mem_cons.1 hl' with h | h
      · subst h
        simp at hc
      · exact List.mem_cons_of_mem _ (ih l' h c hc)
    · rw [if_neg hpa] at hl'
      cases hsp : t.splitOnP p with
      | nil => exact absurd hsp (List.splitOnP_ne_nil p t)
      | cons h0 rest =>
        rw [hsp] at hl'
        simp only [List.modifyHead] at hl'
        rcases List.mem_cons.1 hl' with h | h
        · subst h
          rcases List.mem_cons.1 hc with hc1 | hc2
          · subst hc1
            exact List.mem_cons_self _ _
          · exact List.mem_cons_of_mem _
              (ih h0 (by rw [hsp]; exact List.mem_cons_self _ _) c hc2)
        · exact List.mem_cons_of_mem _
            (ih l' (by rw [hsp]; exact List.mem_cons_of_mem _ h) c hc)

theorem splitOn_sep_not_mem (sep : Char) (l : List Char) :
    ∀ l' ∈ l.splitOn sep, sep ∉ l' := by
  intro l' hl' hmem
  have h := not_pred_of_mem_splitOnP (fun c => c == sep) l l' hl' sep hmem
  simp at h

theorem splitOn_sub (sep : Char) (l : List Char) :
    ∀ l' ∈ l.splitOn sep, ∀ c ∈ l', c ∈ l :=
  fun l' hl' c hc => mem_of_mem_splitOnP (fun c => c == sep) l l' hl' c hc

namespace BaselineFile

theorem pyJoin_eq (a b : List Char) (ha : a ≠ []) (hla : a.getLast? ≠ some '/')
    (hb : b.head? ≠ some '/') : pyJoin a b = a ++ '/' :: b := by
  unfold pyJoin
  rw [if_neg ha, if_neg hb, if_neg hla]

theorem foldl_pyJoin :
    ∀ (segs : List (List Char)) (root : List Char), root ≠ [] →
      root.getLast? ≠ some '/' → segs ≠ [] →
      (∀ s ∈ segs, s ≠ [] ∧ '/' ∉ s) →
      segs.foldl pyJoin root = root ++ '/' :: List.intercalate ['/'] segs := by
  intro segs
  induction segs with
  | nil =>
    intro root _ _ h _
    exact absurd rfl h
  | cons s rest ih =>
    intro root hr hrl _ hs
    have hsv := hs s (List.mem_cons_self _ _)
    have hjoin : pyJoin root s = root ++ '/' :: s := by
      apply pyJoin_eq root s hr hrl
      intro hh
      exact hsv.2 (List.mem_of_mem_head? (Option.mem_def.2 hh))
    rw [List.foldl_cons, hjoin]
    cases rest with
    | nil =>
      simp [List.intercalate]
    | cons b t =>
      have hne2 : root ++ '/' :: s ≠ [] := by simp
      have hlast : (root ++ '/' :: s).getLast? ≠ some '/' := by
        intro hcon
        rw [List.getLast?_append_of_ne_nil root (by simp)] at hcon
        cases s with
        | nil => exact hsv.1 rfl
        | cons c cs =>
          rw [List.getLast?_cons_cons] at hcon
          exact hsv.2 (mem_of_getLast?_eq_some hcon)
      rw [ih (root ++ '/' :: s) hne2 hlast (by simp)
        (fun x hx => hs x (List.mem_cons_of_mem _ hx))]
      rw [SolrFindFiles.intercalate_cons_two ['/'] s b t]
      simp [List.append_assoc]

theorem cons_of_length_succ {α : Type} {l : List α} {n : Nat}
    (h : l.length = n + 1) : ∃ a t, l = a :: t ∧ t.length = n := by
  cases l with
  | nil => simp at h
  | cons a t => exact ⟨a, t, rfl, by simpa using h⟩

theorem cons_of_le_length {α : Type} {l : List α} {n : Nat}
    (h : n + 1 ≤ l.length) : ∃ a t, l = a :: t ∧ n ≤ t.length := by
  cases l with
  | nil => simp at h
  | cons a t => exact ⟨a, t, rfl, by simpa using h⟩

end BaselineFile

namespace BaselineFile

theorem rootTrim_baseline0 : rootTrim baseline0.root_dir = baseline0.root_dir := by
  decide

theorem rootTrim_baseline1 : rootTrim baseline1.root_dir = baseline1.root_dir := by
  decide

/-- Round trip for a baseline-0 candidate given in resolved form: its
parts dictionary as produced by `from_path` (directory parts with the
file-name-token overwrites and the appended `time` token), with every
retained value nonempty and slash-free. -/
theorem c5_tail0 (nr : Nat) (hbl : get_baseline nr = some baseline0)
    (s0 s1 s2 s5 s6 s9 s11 t0 t1 t2 t3 t4 : List Char)
    (o5 : Option (List Char)) (tr : List (Option (List Char)))
    (hft : fileTokens baseline0 s11 =
      some (some t0 :: some t1 :: some t2 :: some t3 :: some t4 :: o5 :: tr))
    (hall : ∀ s ∈ [s0, s1, s2, t2, t3, s5, s6, t1, t4, s9, t0, s11],
      s ≠ [] ∧ '/' ∉ s) :
    ∃ q,
      to_path (mkBLFile baseline0.root_dir
        [("project", some s0), ("product", some s1), ("institute", some s2),
         ("model", some t2), ("experiment", some t3), ("time_frequency", some s5),
         ("realm", some s6), ("cmor_table", some t1), ("ensemble", some t4),
         ("version", some s9), ("variable", some t0), ("file_name", some s11),
         ("time", o5)] nr) = some q ∧
      from_path q nr = some (mkBLFile baseline0.root_dir
        [("project", some s0), ("product", some s1), ("institute", some s2),
         ("model", some t2), ("experiment", some t3), ("time_frequency", some s5),
         ("realm", some s6), ("cmor_table", some t1), ("ensemble", some t4),
         ("version", some s9), ("variable", some t0), ("file_name", some s11),
         ("time", o5)] nr) := by
  refine ⟨baseline0.root_dir ++ '/' ::
    List.intercalate ['/'] [s0, s1, s2, t2, t3, s5, s6, t1, t4, s9, t0, s11],
    ?_, ?_⟩
  · have hproj : to_path (mkBLFile baseline0.root_dir
        [("project", some s0), ("product", some s1), ("institute", some s2),
         ("model", some t2), ("experiment", some t3), ("time_frequency", some s5),
         ("realm", some s6), ("cmor_table", some t1), ("ensemble", some t4),
         ("version", some s9), ("variable", some t0), ("file_name", some s11),
         ("time", o5)] nr) =
        (get_baseline nr).bind (fun bl =>
          bl.parts_dir.foldlM (fun acc key =>
            match dictGet
              [("project", some s0), ("product", some s1), ("institute", some s2),
               ("model", some t2), ("experiment", some t3),
               ("time_frequency", some s5), ("realm", some s6),
               ("cmor_table", some t1), ("ensemble", some t4),
               ("version", some s9), ("variable", some t0),
               ("file_name", some s11), ("time", o5)] key with
            | some (some v) => some (pyJoin acc v)
            | _ => none) baseline0.root_dir) := rfl
    rw [hproj, hbl, Option.some_bind]
    have hfold : baseline0.parts_dir.foldlM (fun acc key =>
        match dictGet
          [("project", some s0), ("product", some s1), ("institute", some s2),
           ("model", some t2), ("experiment", some t3),
           ("time_frequency", some s5), ("realm", some s6),
           ("cmor_table", some t1), ("ensemble", some t4),
           ("version", some s9), ("variable", some t0),
           ("file_name", some s11), ("time", o5)] key with
        | some (some v) => some (pyJoin acc v)
        | _ => none) baseline0.root_dir =
      some (List.foldl pyJoin baseline0.root_dir
        [s0, s1, s2, t2, t3, s5, s6, t1, t4, s9, t0, s11]) := by
      simp [baseline0, dictGet, List.foldlM, List.foldl]
    rw [hfold,
      foldl_pyJoin [s0, s1, s2, t2, t3, s5, s6, t1, t4, s9, t0, s11]
        baseline0.root_dir (by decide) (by decide) (by simp) hall]
  · have hq : baseline0.root_dir ++ '/' ::
        List.intercalate ['/'] [s0, s1, s2, t2, t3, s5, s6, t1, t4, s9, t0, s11] =
        (baseline0.root_dir ++ ['/']) ++
          List.intercalate ['/'] [s0, s1, s2, t2, t3, s5, s6, t1, t4, s9, t0, s11] := by
      simp
    rw [hq]
    unfold from_path
    rw [hbl, Option.some_bind]
    unfold decodeWith
    have hstrip2 : stripRoot baseline0 ((baseline0.root_dir ++ ['/']) ++
        List.intercalate ['/'] [s0, s1, s2, t2, t3, s5, s6, t1, t4, s9, t0, s11]) =
        some (List.intercalate ['/'] [s0, s1, s2, t2, t3, s5, s6, t1, t4, s9, t0, s11]) := by
      unfold stripRoot
      rw [if_pos (List.take_left _ _), List.drop_left]
    rw [hstrip2, Option.some_bind]
    have hws_free : ∀ l' ∈ [s0, s1, s2, t2, t3, s5, s6, t1, t4, s9, t0, s11],
        ('/' : Char) ∉ l' := fun l' hl' => (hall l' hl').2
    have hsplit2 : splitSegs baseline0
        (List.intercalate ['/'] [s0, s1, s2, t2, t3, s5, s6, t1, t4, s9, t0, s11]) =
        some [s0, s1, s2, t2, t3, s5, s6, t1, t4, s9, t0, s11] := by
      unfold splitSegs
      have hI : (List.intercalate ['/']
          [s0, s1, s2, t2, t3, s5, s6, t1, t4, s9, t0, s11]).splitOn '/' =
          [s0, s1, s2, t2, t3, s5, s6, t1, t4, s9, t0, s11] :=
        List.splitOn_intercalate _ '/' hws_free (by simp)
      rw [hI, if_pos (show
        ([s0, s1, s2, t2, t3, s5, s6, t1, t4, s9, t0, s11] :
          List (List Char)).length = baseline0.parts_dir.length from rfl)]
    rw [hsplit2, Option.some_bind]
    have hdir : dirParts baseline0 [s0, s1, s2, t2, t3, s5, s6, t1, t4, s9, t0, s11] =
        [("project", some s0), ("product", some s1), ("institute", some s2),
         ("model", some t2), ("experiment", some t3), ("time_frequency", some s5),
         ("realm", some s6), ("cmor_table", some t1), ("ensemble", some t4),
         ("version", some s9), ("variable", some t0), ("file_name", some s11)] := by
      simp [dirParts, baseline0, dictSet]
    rw [hdir]
    have hwfp2 : withFileParts baseline0
        [("project", some s0), ("product", some s1), ("institute", some s2),
         ("model", some t2), ("experiment", some t3), ("time_frequency", some s5),
         ("realm", some s6), ("cmor_table", some t1), ("ensemble", some t4),
         ("version", some s9), ("variable", some t0), ("file_name", some s11)] =
        (fileTokens baseline0 s11).map (fun tokens =>
          (baseline0.parts_file_name.zip tokens).foldl
            (fun d kv => dictSet d kv.1 kv.2)
            [("project", some s0), ("product", some s1), ("institute", some s2),
             ("model", some t2), ("experiment", some t3), ("time_frequency", some s5),
             ("realm", some s6), ("cmor_table", some t1), ("ensemble", some t4),
             ("version", some s9), ("variable", some t0), ("file_name", some s11)]) := by
      simp only [withFileParts]
      rw [show dictGet
        [("project", some s0), ("product", some s1), ("institute", some s2),
         ("model", some t2), ("experiment", some t3), ("time_frequency", some s5),
         ("realm", some s6), ("cmor_table", some t1), ("ensemble", some t4),
         ("version", some s9), ("variable", some t0), ("file_name", some s11)]
        "file_name" = some (some s11) from by simp [dictGet]]
    rw [hwfp2, hft]
    simp only [Option.map_some']
    simp [baseline0, dictSet, mkBLFile]

end BaselineFile

namespace BaselineFile

/-- Shape of a successful file-name tokenization for a six-token
template: five leading string tokens (tokens drawn from the underscore
split of the trimmed file name) followed by a sixth token (possibly the
appended `None` time token) and a possibly empty remainder. -/
theorem fileTokens_shape (bl : Baseline) (fn : List Char)
    (tokens : List (Option (List Char)))
    (hb : bl.parts_file_name.length = 6)
    (hft : fileTokens bl fn = some tokens) :
    ∃ t0 t1 t2 t3 t4 o5 tr,
      tokens = some t0 :: some t1 :: some t2 :: some t3 :: some t4 :: o5 :: tr ∧
      (∀ x ∈ [t0, t1, t2, t3, t4], x ∈ (fn.take (fn.length - 3)).splitOn '_') := by
  set fnParts := (fn.take (fn.length - 3)).splitOn '_' with hfp
  simp only [fileTokens] at hft
  rw [hb] at hft
  rw [← hfp] at hft
  clear_value fnParts
  clear hfp
  by_cases hC : fnParts.length = 6 - 1 ∧ "r0i0p0".toList ∈ fnParts
  · rw [if_pos hC] at hft
    have hlen5 : fnParts.length = 5 := by simpa using hC.1
    obtain ⟨u0, l1, rfl, h1⟩ := cons_of_length_succ hlen5
    obtain ⟨u1, l2, rfl, h2⟩ := cons_of_length_succ h1
    obtain ⟨u2, l3, rfl, h3⟩ := cons_of_length_succ h2
    obtain ⟨u3, l4, rfl, h4⟩ := cons_of_length_succ h3
    obtain ⟨u4, l5, rfl, h5⟩ := cons_of_length_succ h4
    have hnil : l5 = [] := List.length_eq_zero.1 h5
    subst hnil
    simp only [List.map_cons, List.map_nil, List.nil_append, List.cons_append,
      List.length_cons, List.length_nil] at hft
    rw [if_pos (by omega)] at hft
    refine ⟨u0, u1, u2, u3, u4, none, [], (Option.some.inj hft).symm, ?_⟩
    intro x hx
    simp only [List.mem_cons, List.not_mem_nil, or_false] at hx
    rcases hx with rfl | rfl | rfl | rfl | rfl <;> simp
  · rw [if_neg hC] at hft
    by_cases hg : 6 ≤ fnParts.length
    · rw [if_pos (by simpa using hg)] at hft
      obtain ⟨u0, l1, rfl, h1⟩ := cons_of_le_length hg
      obtain ⟨u1, l2, rfl, h2⟩ := cons_of_le_length h1
      obtain ⟨u2, l3, rfl, h3⟩ := cons_of_le_length h2
      obtain ⟨u3, l4, rfl, h4⟩ := cons_of_le_length h3
      obtain ⟨u4, l5, rfl, h5⟩ := cons_of_le_length h4
      obtain ⟨u5, l6, rfl, h6⟩ := cons_of_le_length h5
      refine ⟨u0, u1, u2, u3, u4, some u5, l6.map some, ?_, ?_⟩
      · have := (Option.some.inj hft).symm
        simpa using this
      · intro x hx
        simp only [List.mem_cons, List.not_mem_nil, or_false] at hx
        rcases hx with rfl | rfl | rfl | rfl | rfl <;> simp
    · rw [if_neg (by simpa using hg)] at hft
      exact absurd hft (by simp)

end BaselineFile

namespace BaselineFile

/-- Round trip for a baseline-1 candidate given in resolved form
(baseline 1 declares neither `cmor_table` nor `time` as directory
segments, so both are appended by the file-name token loop). -/
theorem c5_tail1 (nr : Nat) (hbl : get_baseline nr = some baseline1)
    (s0 s1 s2 s5 s6 s9 t0 t1 t2 t3 t4 : List Char)
    (o5 : Option (List Char)) (tr : List (Option (List Char)))
    (hft : fileTokens baseline1 s9 =
      some (some t0 :: some t1 :: some t2 :: some t3 :: some t4 :: o5 :: tr))
    (hall : ∀ s ∈ [s0, s1, s2, t2, t3, s5, s6, t0, t4, s9],
      s ≠ [] ∧ '/' ∉ s) :
    ∃ q,
      to_path (mkBLFile baseline1.root_dir
        [("project", some s0), ("product", some s1), ("institute", some s2),
         ("model", some t2), ("experiment", some t3), ("time_frequency", some s5),
         ("realm", some s6), ("variable", some t0), ("ensemble", some t4),
         ("file_name", some s9), ("cmor_table", some t1), ("time", o5)] nr) = some q ∧
      from_path q nr = some (mkBLFile baseline1.root_dir
        [("project", some s0), ("product", some s1), ("institute", some s2),
         ("model", some t2), ("experiment", some t3), ("time_frequency", some s5),
         ("realm", some s6), ("variable", some t0), ("ensemble", some t4),
         ("file_name", some s9), ("cmor_table", some t1), ("time", o5)] nr) := by
  refine ⟨baseline1.root_dir ++ '/' ::
    List.intercalate ['/'] [s0, s1, s2, t2, t3, s5, s6, t0, t4, s9],
    ?_, ?_⟩
  · have hproj : to_path (mkBLFile baseline1.root_dir
        [("project", some s0), ("product", some s1), ("institute", some s2),
         ("model", some t2), ("experiment", some t3), ("time_frequency", some s5),
         ("realm", some s6), ("variable", some t0), ("ensemble", some t4),
         ("file_name", some s9), ("cmor_table", some t1), ("time", o5)] nr) =
        (get_baseline nr).bind (fun bl =>
          bl.parts_dir.foldlM (fun acc key =>
            match dictGet
              [("project", some s0), ("product", some s1), ("institute", some s2),
               ("model", some t2), ("experiment", some t3),
               ("time_frequency", some s5), ("realm", some s6),
               ("variable", some t0), ("ensemble", some t4),
               ("file_name", some s9), ("cmor_table", some t1),
               ("time", o5)] key with
            | some (some v) => some (pyJoin acc v)
            | _ => none) baseline1.root_dir) := rfl
    rw [hproj, hbl, Option.some_bind]
    have hfold : baseline1.parts_dir.foldlM (fun acc key =>
        match dictGet
          [("project", some s0), ("product", some s1), ("institute", some s2),
           ("model", some t2), ("experiment", some t3),
           ("time_frequency", some s5), ("realm", some s6),
           ("variable", some t0), ("ensemble", some t4),
           ("file_name", some s9), ("cmor_table", some t1),
           ("time", o5)] key with
        | some (some v) => some (pyJoin acc v)
        | _ => none) baseline1.root_dir =
      some (List.foldl pyJoin baseline1.root_dir
        [s0, s1, s2, t2, t3, s5, s6, t0, t4, s9]) := by
      simp [baseline1, dictGet, List.foldlM, List.foldl]
    rw [hfold,
      foldl_pyJoin [s0, s1, s2, t2, t3, s5, s6, t0, t4, s9]
        baseline1.root_dir (by decide) (by decide) (by simp) hall]
  · have hq : baseline1.root_dir ++ '/' ::
        List.intercalate ['/'] [s0, s1, s2, t2, t3, s5, s6, t0, t4, s9] =
        (baseline1.root_dir ++ ['/']) ++
          List.intercalate ['/'] [s0, s1, s2, t2, t3, s5, s6, t0, t4, s9] := by
      simp
    rw [hq]
    unfold from_path
    rw [hbl, Option.some_bind]
    unfold decodeWith
    have hstrip2 : stripRoot baseline1 ((baseline1.root_dir ++ ['/']) ++
        List.intercalate ['/'] [s0, s1, s2, t2, t3, s5, s6, t0, t4, s9]) =
        some (List.intercalate ['/'] [s0, s1, s2, t2, t3, s5, s6, t0, t4, s9]) := by
      unfold stripRoot
      rw [if_pos (List.take_left _ _), List.drop_left]
    rw [hstrip2, Option.some_bind]
    have hws_free : ∀ l' ∈ [s0, s1, s2, t2, t3, s5, s6, t0, t4, s9],
        ('/' : Char) ∉ l' := fun l' hl' => (hall l' hl').2
    have hsplit2 : splitSegs baseline1
        (List.intercalate ['/'] [s0, s1, s2, t2, t3, s5, s6, t0, t4, s9]) =
        some [s0, s1, s2, t2, t3, s5, s6, t0, t4, s9] := by
      unfold splitSegs
      have hI : (List.intercalate ['/']
          [s0, s1, s2, t2, t3, s5, s6, t0, t4, s9]).splitOn '/' =
          [s0, s1, s2, t2, t3, s5, s6, t0, t4, s9] :=
        List.splitOn_intercalate _ '/' hws_free (by simp)
      rw [hI, if_pos (show
        ([s0, s1, s2, t2, t3, s5, s6, t0, t4, s9] :
          List (List Char)).length = baseline1.parts_dir.length from rfl)]
    rw [hsplit2, Option.some_bind]
    have hdir : dirParts baseline1 [s0, s1, s2, t2, t3, s5, s6, t0, t4, s9] =
        [("project", some s0), ("product", some s1), ("institute", some s2),
         ("model", some t2), ("experiment", some t3), ("time_frequency", some s5),
         ("realm", some s6), ("variable", some t0), ("ensemble", some t4),
         ("file_name", some s9)] := by
      simp [dirParts, baseline1, dictSet]
    rw [hdir]
    have hwfp2 : withFileParts baseline1
        [("project", some s0), ("product", some s1), ("institute", some s2),
         ("model", some t2), ("experiment", some t3), ("time_frequency", some s5),
         ("realm", some s6), ("variable", some t0), ("ensemble", some t4),
         ("file_name", some s9)] =
        (fileTokens baseline1 s9).map (fun tokens =>
          (baseline1.parts_file_name.zip tokens).foldl
            (fun d kv => dictSet d kv.1 kv.2)
            [("project", some s0), ("product", some s1), ("institute", some s2),
             ("model", some t2), ("experiment", some t3), ("time_frequency", some s5),
             ("realm", some s6), ("variable", some t0), ("ensemble", some t4),
             ("file_name", some s9)]) := by
      simp only [withFileParts]
      rw [show dictGet
        [("project", some s0), ("product", some s1), ("institute", some s2),
         ("model", some t2), ("experiment", some t3), ("time_frequency", some s5),
         ("realm", some s6), ("variable", some t0), ("ensemble", some t4),
         ("file_name", some s9)]
        "file_name" = some (some s9) from by simp [dictGet]]
    rw [hwfp2, hft]
    simp only [Option.map_some']
    simp [baseline1, dictSet, mkBLFile]

end BaselineFile

namespace BaselineFile

/-- C5 (amended): for every decoded candidate `c` all of whose
attribute values are nonempty (an empty file-name token produces a
candidate whose re-encoded path collapses a path segment — see the
counterexample; directory segments of the `realpath`-canonical paths
the source decodes are never empty), encoding `c` back to a path and
decoding that path again yields exactly `c` — hence equal attribute
map, dataset key and version. -/
theorem c5_roundtrip (p : List Char) (nr : Nat) (c : BLFile)
    (hdec : from_path p nr = some c)
    (hne0 : ∀ kv ∈ c.parts, kv.2 ≠ some []) :
    ∃ q, to_path c = some q ∧ from_path q nr = some c := by
  have hne : ∀ kv ∈ c.parts, ∀ v, kv.2 = some v → v ≠ [] :=
    fun kv hkv v hv hnil => hne0 kv hkv (by rw [hv, hnil])
  clear hne0
  unfold from_path at hdec
  obtain ⟨bl, hbl, hdw⟩ := Option.bind_eq_some.1 hdec
  unfold decodeWith at hdw
  obtain ⟨rest, hstrip, hdw2⟩ := Option.bind_eq_some.1 hdw
  obtain ⟨segs, hsegs, hdw3⟩ := Option.bind_eq_some.1 hdw2
  obtain ⟨m1, hwfp, hmk⟩ := Option.map_eq_some'.1 hdw3
  unfold splitSegs at hsegs
  by_cases hlen : (rest.splitOn '/').length = bl.parts_dir.length
  · rw [if_pos hlen] at hsegs
    have hsegseq : segs = rest.splitOn '/' := (Option.some.inj hsegs).symm
    have hfree : ∀ s ∈ segs, '/' ∉ s := by
      rw [hsegseq]
      exact splitOn_sep_not_mem '/' rest
    have hlen2 : segs.length = bl.parts_dir.length := by
      rw [hsegseq]
      exact hlen
    rcases get_baseline_cases nr bl hbl with hb | hb <;> subst hb
    · have hlen12 : segs.length = 12 := hlen2
      obtain ⟨s0, l1, rfl, h1⟩ := cons_of_length_succ hlen12
      obtain ⟨s1, l2, rfl, h2⟩ := cons_of_length_succ h1
      obtain ⟨s2, l3, rfl, h3⟩ := cons_of_length_succ h2
      obtain ⟨s3, l4, rfl, h4⟩ := cons_of_length_succ h3
      obtain ⟨s4, l5, rfl, h5⟩ := cons_of_length_succ h4
      obtain ⟨s5, l6, rfl, h6⟩ := cons_of_length_succ h5
      obtain ⟨s6, l7, rfl, h7⟩ := cons_of_length_succ h6
      obtain ⟨s7, l8, rfl, h8⟩ := cons_of_length_succ h7
      obtain ⟨s8, l9, rfl, h9⟩ := cons_of_length_succ h8
      obtain ⟨s9, l10, rfl, h10⟩ := cons_of_length_succ h9
      obtain ⟨s10, l11, rfl, h11⟩ := cons_of_length_succ h10
      obtain ⟨s11, l12, rfl, h12⟩ := cons_of_length_succ h11
      have hnil : l12 = [] := List.length_eq_zero.1 h12
      subst hnil
      have hdir : dirParts baseline0
          [s0, s1, s2, s3, s4, s5, s6, s7, s8, s9, s10, s11] =
          [("project", some s0), ("product", some s1), ("institute", some s2),
           ("model", some s3), ("experiment", some s4), ("time_frequency", some s5),
           ("realm", some s6), ("cmor_table", some s7), ("ensemble", some s8),
           ("version", some s9), ("variable", some s10), ("file_name", some s11)] := by
        simp [dirParts, baseline0, dictSet]
      rw [hdir] at hwfp
      simp only [withFileParts] at hwfp
      rw [show dictGet
          [("project", some s0), ("product", some s1), ("institute", some s2),
           ("model", some s3), ("experiment", some s4), ("time_frequency", some s5),
           ("realm", some s6), ("cmor_table", some s7), ("ensemble", some s8),
           ("version", some s9), ("variable", some s10), ("file_name", some s11)]
          "file_name" = some (some s11) from by simp [dictGet]] at hwfp
      obtain ⟨tokens, hft, hm1⟩ := Option.map_eq_some'.1 hwfp
      obtain ⟨t0, t1, t2, t3, t4, o5, tr, htok, hmem⟩ :=
        fileTokens_shape baseline0 s11 tokens rfl hft
      subst htok
      have hm1' : m1 =
          [("project", some s0), ("product", some s1), ("institute", some s2),
           ("model", some t2), ("experiment", some t3), ("time_frequency", some s5),
           ("realm", some s6), ("cmor_table", some t1), ("ensemble", some t4),
           ("version", some s9), ("variable", some t0), ("file_name", some s11),
           ("time", o5)] := by
        rw [← hm1]
        simp [baseline0, dictSet]
      subst hm1'
      subst hmk
      have hfree11 : '/' ∉ s11 := hfree s11 (by simp)
      have htfree : ∀ x ∈ [t0, t1, t2, t3, t4], '/' ∉ x := by
        intro x hx hmemx
        exact hfree11
          (List.mem_of_mem_take (splitOn_sub '_' _ x (hmem x hx) '/' hmemx))
      have hallres : ∀ s ∈ [s0, s1, s2, t2, t3, s5, s6, t1, t4, s9, t0, s11],
          s ≠ [] ∧ '/' ∉ s := by
        intro s hs
        simp only [List.mem_cons, List.not_mem_nil, or_false] at hs
        rcases hs with rfl | rfl | rfl | rfl | rfl | rfl | rfl | rfl | rfl | rfl | rfl | rfl
        · exact ⟨hne ("project", some s) (by simp [mkBLFile]) s rfl, hfree s (by simp)⟩
        · exact ⟨hne ("product", some s) (by simp [mkBLFile]) s rfl, hfree s (by simp)⟩
        · exact ⟨hne ("institute", some s) (by simp [mkBLFile]) s rfl, hfree s (by simp)⟩
        · exact ⟨hne ("model", some s) (by simp [mkBLFile]) s rfl, htfree s (by simp)⟩
        · exact ⟨hne ("experiment", some s) (by simp [mkBLFile]) s rfl, htfree s (by simp)⟩
        · exact ⟨hne ("time_frequency", some s) (by simp [mkBLFile]) s rfl, hfree s (by simp)⟩
        · exact ⟨hne ("realm", some s) (by simp [mkBLFile]) s rfl, hfree s (by simp)⟩
        · exact ⟨hne ("cmor_table", some s) (by simp [mkBLFile]) s rfl, htfree s (by simp)⟩
        · exact ⟨hne ("ensemble", some s) (by simp [mkBLFile]) s rfl, htfree s (by simp)⟩
        · exact ⟨hne ("version", some s) (by simp [mkBLFile]) s rfl, hfree s (by simp)⟩
        · exact ⟨hne ("variable", some s) (by simp [mkBLFile]) s rfl, htfree s (by simp)⟩
        · exact ⟨hne ("file_name", some s) (by simp [mkBLFile]) s rfl, hfree s (by simp)⟩
      exact c5_tail0 nr hbl s0 s1 s2 s5 s6 s9 s11 t0 t1 t2 t3 t4 o5 tr hft hallres
    · have hlen10 : segs.length = 10 := hlen2
      obtain ⟨s0, l1, rfl, h1⟩ := cons_of_length_succ hlen10
      obtain ⟨s1, l2, rfl, h2⟩ := cons_of_length_succ h1
      obtain ⟨s2, l3, rfl, h3⟩ := cons_of_length_succ h2
      obtain ⟨s3, l4, rfl, h4⟩ := cons_of_length_succ h3
      obtain ⟨s4, l5, rfl, h5⟩ := cons_of_length_succ h4
      obtain ⟨s5, l6, rfl, h6⟩ := cons_of_length_succ h5
      obtain ⟨s6, l7, rfl, h7⟩ := cons_of_length_succ h6
      obtain ⟨s7, l8, rfl, h8⟩ := cons_of_length_succ h7
      obtain ⟨s8, l9, rfl, h9⟩ := cons_of_length_succ h8
      obtain ⟨s9, l10, rfl, h10⟩ := cons_of_length_succ h9
      have hnil : l10 = [] := List.length_eq_zero.1 h10
      subst hnil
      have hdir : dirParts baseline1
          [s0, s1, s2, s3, s4, s5, s6, s7, s8, s9] =
          [("project", some s0), ("product", some s1), ("institute", some s2),
           ("model", some s3), ("experiment", some s4), ("time_frequency", some s5),
           ("realm", some s6), ("variable", some s7), ("ensemble", some s8),
           ("file_name", some s9)] := by
        simp [dirParts, baseline1, dictSet]
      rw [hdir] at hwfp
      simp only [withFileParts] at hwfp
      rw [show dictGet
          [("project", some s0), ("product", some s1), ("institute", some s2),
           ("model", some s3), ("experiment", some s4), ("time_frequency", some s5),
           ("realm", some s6), ("variable", some s7), ("ensemble", some s8),
           ("file_name", some s9)]
          "file_name" = some (some s9) from by simp [dictGet]] at hwfp
      obtain ⟨tokens, hft, hm1⟩ := Option.map_eq_some'.1 hwfp
      obtain ⟨t0, t1, t2, t3, t4, o5, tr, htok, hmem⟩ :=
        fileTokens_shape baseline1 s9 tokens rfl hft
      subst htok
      have hm1' : m1 =
          [("project", some s0), ("product", some s1), ("institute", some s2),
           ("model", some t2), ("experiment", some t3), ("time_frequency", some s5),
           ("realm", some s6), ("variable", some t0), ("ensemble", some t4),
           ("file_name", some s9), ("cmor_table", some t1), ("time", o5)] := by
        rw [← hm1]
        simp [baseline1, dictSet]
      subst hm1'
      subst hmk
      have hfree9 : '/' ∉ s9 := hfree s9 (by simp)
      have htfree : ∀ x ∈ [t0, t1, t2, t3, t4], '/' ∉ x := by
        intro x hx hmemx
        exact hfree9
          (List.mem_of_mem_take (splitOn_sub '_' _ x (hmem x hx) '/' hmemx))
      have hallres : ∀ s ∈ [s0, s1, s2, t2, t3, s5, s6, t0, t4, s9],
          s ≠ [] ∧ '/' ∉ s := by
        intro s hs
        simp only [List.mem_cons, List.not_mem_nil, or_false] at hs
        rcases hs with rfl | rfl | rfl | rfl | rfl | rfl | rfl | rfl | rfl | rfl
        · exact ⟨hne ("project", some s) (by simp [mkBLFile]) s rfl, hfree s (by simp)⟩
        · exact ⟨hne ("product", some s) (by simp [mkBLFile]) s rfl, hfree s (by simp)⟩
        · exact ⟨hne ("institute", some s) (by simp [mkBLFile]) s rfl, hfree s (by simp)⟩
        · exact ⟨hne ("model", some s) (by simp [mkBLFile]) s rfl, htfree s (by simp)⟩
        · exact ⟨hne ("experiment", some s) (by simp [mkBLFile]) s rfl, htfree s (by simp)⟩
        · exact ⟨hne ("time_frequency", some s) (by simp [mkBLFile]) s rfl, hfree s (by simp)⟩
        · exact ⟨hne ("realm", some s) (by simp [mkBLFile]) s rfl, hfree s (by simp)⟩
        · exact ⟨hne ("variable", some s) (by simp [mkBLFile]) s rfl, htfree s (by simp)⟩
        · exact ⟨hne ("ensemble", some s) (by simp [mkBLFile]) s rfl, htfree s (by simp)⟩
        · exact ⟨hne ("file_name", some s) (by simp [mkBLFile]) s rfl, hfree s (by simp)⟩
      exact c5_tail1 nr hbl s0 s1 s2 s5 s6 s9 t0 t1 t2 t3 t4 o5 tr hft hallres
  · rw [if_neg hlen] at hsegs
    exact absurd hsegs (by simp)

end BaselineFile

namespace BaselineFile

/-- A real, canonical baseline-0 path whose file name contains an empty
token (a double underscore): it decodes successfully, but the empty
`cmor_table` token overwrites the directory part, the re-encoded path
collapses that segment, and re-decoding fails. -/
def c5BadPath : List Char :=
  "/gpfs_750/projects/CMIP5/data/p/o/i/m/e1/f/r/Amon/r1i1p1/v1/tas/tas__m_e1_r1i1p1_200101.nc".toList

/-- C5 counterexample: decoding `c5BadPath` succeeds and encoding the
resulting candidate succeeds, but decoding the encoded path fails — so
no candidate equal to the original is recovered, refuting the
round-trip claim as stated. -/
theorem c5_roundtrip_counterexample :
    (from_path c5BadPath 0).isSome = true ∧
    ((from_path c5BadPath 0).bind to_path).isSome = true ∧
    (((from_path c5BadPath 0).bind to_path).bind (fun q => from_path q 0)) =
      none := by
  decide

/-- C5 witness: the amended round trip instantiated at the concrete
decoded candidate `c2A1`. -/
theorem c5_roundtrip_witness :
    (to_path c2A1).isSome = true ∧
    ((to_path c2A1).bind (fun q => from_path q 0)) = some c2A1 := by
  obtain ⟨q, hq, hdec⟩ := c5_roundtrip c2PathA1 0 c2A1 (by decide) (by decide)
  rw [hq]
  exact ⟨rfl, by simpa using hdec⟩

end BaselineFile
